import Mathlib

/-!
Verification development for the `lambda-appsync` schema compiler.

The definitions below are a shallow embedding of the Rust source:
- `lambda-appsync-proc/src/common.rs` (identifier casing, `Name`, identifier
  escaping),
- `lambda-appsync-proc/src/appsync_lambda_main/graphql.rs` (the GraphQL type
  model, override application, schema construction, code emission semantics),
- `lambda-appsync-proc/src/appsync_lambda_main/overrides.rs` (override maps),
- `lambda-appsync/src/lib.rs` (`arg_from_json` and the dispatch wrapper).

Rust `HashMap`s are modelled as association lists (iteration order in the
model is the list order; the source's hash-map iteration order is arbitrary,
and no theorem below depends on it). `syn::Error` values combined with
`Error::combine` are modelled as a `List String` of the individual messages,
in combination order. `proc_macro2::Span` data is dropped: it only affects
diagnostics locations, never control flow. Characters are treated with ASCII
case predicates; GraphQL identifiers match `[_A-Za-z][_0-9A-Za-z]*` so the
Unicode-aware Rust predicates agree on every reachable input.
-/

namespace LambdaAppsync

/-! ### common.rs: `CaseType` -/

/-- Mirror of `CaseType` in `common.rs`. -/
inductive CaseType
  | camel
  | pascal
  | snake
  | upper
deriving DecidableEq, Repr

/-- Mirror of `CaseType::case` on the character list of the input string.
The source scans the tail and returns early at the first offending
character; `List.all` expresses the same test. The source panics on an
empty string ("Empty string has no case"); the model returns `none` there. -/
def CaseType.caseList : List Char → Option CaseType
  | [] => none
  | c :: cs =>
    if c.isUpper then
      -- Can only be Pascal or all upper
      if cs.all (fun x => x.isUpper || x = '_') then some .upper else some .pascal
    else
      -- Can only be Camel or all lower
      if cs.all (fun x => x.isLower || x = '_') then some .snake else some .camel

/-- Mirror of `CaseType::case` (string version). -/
def CaseType.case (s : String) : Option CaseType :=
  CaseType.caseList s.toList

/-! ### common.rs: word splitting and `Name` -/

/-- Camel/Pascal segmentation: a new slice starts at each uppercase
character; `acc` holds the (reversed) current slice. Mirrors the
`char_indices` loops in `Name::from` in `common.rs`. -/
def camelSegs (acc : List Char) : List Char → List (List Char)
  | [] => [acc.reverse]
  | c :: cs => if c.isUpper then acc.reverse :: camelSegs [c] cs else camelSegs (c :: acc) cs

/-- Pascal segmentation skips the uppercase break at index 0
(`i != 0` in the source). -/
def pascalSegs : List Char → List (List Char)
  | [] => [[]]
  | c :: cs => camelSegs [c] cs

/-- Split on `_` with Rust's `str::split('_')` semantics (empty pieces are
kept; the empty string yields one empty piece). -/
def splitUnderscore : List Char → List (List Char)
  | [] => [[]]
  | c :: cs =>
    if c = '_' then [] :: splitUnderscore cs
    else
      match splitUnderscore cs with
      | [] => [[c]]  -- unreachable: the function never returns []
      | w :: ws => (c :: w) :: ws

/-- ASCII model of Rust's `str::to_lowercase`. -/
def lowerString (s : String) : String := String.mk (s.toList.map Char.toLower)

/-- ASCII model of Rust's `str::to_uppercase`. -/
def upperString (s : String) : String := String.mk (s.toList.map Char.toUpper)

/-- Mirror of `Name` in `common.rs` (the `span` field is dropped; it never
affects behaviour). `words` are the `Word` values, stored lowercase. -/
structure Name where
  orig : String
  words : List String
  name_override : Option String
deriving DecidableEq, Repr

/-- Mirror of `impl From<(String, Span)> for Name`: classify the casing of
`orig` and split into words. The source panics on the empty string (inside
`CaseType::case`); the model returns an empty word list there. -/
def Name.ofString (orig : String) : Name :=
  match CaseType.case orig with
  | some .camel =>
    { orig, words := (camelSegs [] orig.toList).map (fun seg => lowerString (String.mk seg)),
      name_override := none }
  | some .pascal =>
    { orig, words := (pascalSegs orig.toList).map (fun seg => lowerString (String.mk seg)),
      name_override := none }
  | some .snake =>
    { orig, words := (splitUnderscore orig.toList).map String.mk, name_override := none }
  | some .upper =>
    { orig, words := (splitUnderscore orig.toList).map (fun seg => lowerString (String.mk seg)),
      name_override := none }
  | none => { orig, words := [], name_override := none }

/-- Mirror of `Name::override_name`. -/
def Name.override_name (n : Name) (s : String) : Name :=
  { n with name_override := some s }

/-- Mirror of `Word::capitalize`: uppercase the first character, keep the
rest unchanged. -/
def capitalizeWord (w : String) : String :=
  match w.toList with
  | [] => ""
  | c :: cs => String.mk (c.toUpper :: cs)

/-- Mirror of `Name::to_case`: an explicit `name_override` is returned
verbatim for every casing request; otherwise the words are re-joined. -/
def Name.to_case (n : Name) (case : CaseType) : String :=
  match n.name_override with
  | some o => o
  | none =>
    match case with
    | .camel =>
      match n.words with
      | [] => ""  -- source: `expect("non empty name")`, unreachable for built names
      | w :: ws => w ++ String.join (ws.map capitalizeWord)
    | .pascal => String.join (n.words.map capitalizeWord)
    | .snake => String.intercalate "_" n.words
    | .upper => String.intercalate "_" (n.words.map upperString)

/-- Model of `proc_macro2::Ident`: `raw` marks an `r#`-prefixed identifier,
`sym` is the bare symbol (what serde uses as the field key after unraw). -/
structure RustIdent where
  raw : Bool
  sym : String
deriving DecidableEq, Repr

/-- The keyword list of `Name::to_var_ident` (`RUST_KEYWORDS`). -/
def rustKeywords : List String :=
  ["as", "async", "await", "break", "const", "continue", "dyn", "else", "enum",
   "extern", "false", "fn", "for", "if", "impl", "in", "let", "loop", "match",
   "mod", "move", "mut", "pub", "ref", "return", "static", "struct", "trait",
   "true", "type", "unsafe", "use", "where", "while",
   "abstract", "become", "box", "do", "final", "macro", "override", "priv",
   "try", "gen", "typeof", "unsized", "virtual", "yield",
   "macro_rules", "union", "\x27static", "safe", "raw"]

/-- The `RUST_INESCAPABLE_KEYWORDS` list of `Name::to_var_ident`. -/
def rustInescapableKeywords : List String := ["crate", "self", "super"]

/-- Mirror of `Name::to_var_ident`: snake-case the name, then escape Rust
keywords (`r_` textual prefix for inescapable ones, raw `r#` identifier for
the rest) when the name is a single word. -/
def Name.to_var_ident (n : Name) : RustIdent :=
  let identStr := n.to_case .snake
  if n.words.length = 1 && rustInescapableKeywords.contains identStr then
    { raw := false, sym := "r_" ++ identStr }
  else if n.words.length = 1 && rustKeywords.contains identStr then
    { raw := true, sym := identStr }
  else
    { raw := false, sym := identStr }

/-- Mirror of `Name::to_type_ident` (PascalCase, never raw). -/
def Name.to_type_ident (n : Name) : RustIdent :=
  { raw := false, sym := n.to_case .pascal }

/-- Model of `proc_macro2`'s `PartialEq<&str> for Ident`: a raw identifier
equals `s` only when `s` itself spells the `r#` prefix. -/
def RustIdent.eqStr (i : RustIdent) (s : String) : Bool :=
  if i.raw then
    match s.toList with
    | 'r' :: '#' :: rest => i.sym.toList == rest
    | _ => false
  else i.sym == s

/-- A GraphQL name per the GraphQL grammar: `[_A-Za-z][_0-9A-Za-z]*`.
Every schema-declared identifier handled by the compiler has this shape. -/
def isGraphQLNameChar (c : Char) : Bool :=
  c.isAlpha || c.isDigit || c = '_'

/-- A GraphQL name per the GraphQL grammar (nonempty, no `#` etc.). -/
def isGraphQLName (s : String) : Bool :=
  match s.toList with
  | [] => false
  | c :: cs => (c.isAlpha || c = '_') && cs.all isGraphQLNameChar

/-! ### graphql.rs: `Scalar` and `FieldType` -/

/-- Mirror of `Scalar` in `graphql.rs`. -/
inductive Scalar
  | string | id | int | float | boolean
  | awsEmail | awsPhone | awsTimestamp | awsDate | awsTime | awsDateTime
  | awsJSON | awsURL | awsIPAddress
deriving DecidableEq, Repr

/-- Mirror of `impl TryFrom<&str> for Scalar`. -/
def Scalar.try_from (s : String) : Option Scalar :=
  match s with
  | "String" => some .string
  | "ID" => some .id
  | "Int" => some .int
  | "Float" => some .float
  | "Boolean" => some .boolean
  | "AWSEmail" => some .awsEmail
  | "AWSPhone" => some .awsPhone
  | "AWSTimestamp" => some .awsTimestamp
  | "AWSDate" => some .awsDate
  | "AWSTime" => some .awsTime
  | "AWSDateTime" => some .awsDateTime
  | "AWSJSON" => some .awsJSON
  | "AWSURL" => some .awsURL
  | "AWSIPAddress" => some .awsIPAddress
  | _ => none

/-- Mirror of `FieldType` in `graphql.rs`; the `Overriden` payload
(`syn::Type`) is modelled as the token string of the override target. The
constructor spelling `optionnal` follows the source (`Optionnal`). -/
inductive FieldType
  | overriden (ty : String)
  | custom (name : Name)
  | scalar (s : Scalar)
  | list (inner : FieldType)
  | optionnal (inner : FieldType)
deriving DecidableEq, Repr

/-- Mirror of `FieldType::from_string`. -/
def FieldType.from_string (name : String) : FieldType :=
  match Scalar.try_from name with
  | some s => .scalar s
  | none => .custom (Name.ofString name)

/-- Mirror of `FieldType::is_optionnal`. -/
def FieldType.is_optionnal : FieldType → Bool
  | .optionnal _ => true
  | _ => false

/-- Mirror of `FieldType::override_type`: recurse through `List`/`Optionnal`
wrappers and replace the leaf by `Overriden`. -/
def FieldType.override_type : FieldType → String → FieldType
  | .overriden _, t => .overriden t
  | .custom _, t => .overriden t
  | .scalar _, t => .overriden t
  | .list inner, t => .list (inner.override_type t)
  | .optionnal inner, t => .optionnal (inner.override_type t)

/-- The `graphql_parser::schema::Type` AST (named / list / non-null). -/
inductive GType
  | named (n : String)
  | list (t : GType)
  | nonNull (t : GType)
deriving DecidableEq, Repr

/-- Mirror of `impl From<graphql_parser::schema::Type> for FieldType`.
The `NonNullType(NonNullType _)` case is `unreachable!("Double NonNullType
is not supported")` in the source (the GraphQL grammar cannot produce it);
the model recurses there so the function is total. -/
def FieldType.ofGType : GType → FieldType
  | .named n => .optionnal (FieldType.from_string n)
  | .list t => .optionnal (.list (FieldType.ofGType t))
  | .nonNull (.named n) => FieldType.from_string n
  | .nonNull (.list t) => .list (FieldType.ofGType t)
  | .nonNull (.nonNull t) => FieldType.ofGType t

/-- The List/Optionnal wrapper spine of a `FieldType`, outermost first
(`true` = List, `false` = Optionnal). Specification-side view used to state
that overriding preserves the wrapping. -/
def FieldType.wrapperSpine : FieldType → List Bool
  | .list inner => true :: inner.wrapperSpine
  | .optionnal inner => false :: inner.wrapperSpine
  | _ => []

/-- The innermost non-wrapper type of a `FieldType` chain
(specification-side view). -/
def FieldType.leaf : FieldType → FieldType
  | .list inner => inner.leaf
  | .optionnal inner => inner.leaf
  | ft => ft

/-! ### JSON values (model of `serde_json::Value`) -/

/-- Model of `serde_json::Value` (numbers as integers: no claim depends on
float representation). -/
inductive Json
  | null
  | bool (b : Bool)
  | num (n : Int)
  | str (s : String)
  | arr (items : List Json)
  | obj (fields : List (String × Json))

/-- Whether a JSON value is `null`. -/
def Json.isNull : Json → Bool
  | .null => true
  | _ => false

/-- First-match association-list lookup (model of map key lookup). -/
def lookupKey : List (String × Json) → String → Option Json
  | [], _ => none
  | (k, v) :: rest, n => if k = n then some v else lookupKey rest n

/-- Model of `Value::get` for object keys. -/
def Json.get (j : Json) (key : String) : Option Json :=
  match j with
  | .obj fields => lookupKey fields key
  | _ => none

/-- Replace the value of the first entry with the given key. -/
def setFirst : List (String × Json) → String → Json → List (String × Json)
  | [], _, _ => []
  | (k, v) :: rest, n, x => if k = n then (k, x) :: rest else (k, v) :: setFirst rest n x

/-- Model of `args.get_mut(name).unwrap_or(&mut Value::Null).take()`:
returns the taken value (or `null` when the key is absent or the value is
not an object) together with the mutated JSON value. -/
def Json.takeKey (j : Json) (key : String) : Json × Json :=
  match j with
  | .obj fields =>
    match lookupKey fields key with
    | some v => (v, .obj (setFirst fields key .null))
    | none => (.null, .obj fields)
  | _ => (.null, j)

/-! ### graphql.rs: `Field` and the serde attributes emitted by
`impl ToTokens for FieldContext` -/

/-- Mirror of `Field` in `graphql.rs`. -/
structure Field where
  name : Name
  field_type : FieldType
deriving DecidableEq, Repr

/-- The `#[serde(rename = ...)]` option emitted by `FieldContext`: present
exactly when the generated field identifier differs from the original
schema name (`if name != orig_name` in the source, with `proc_macro2`'s
`Ident == &str` comparison). -/
def Field.serde_rename (f : Field) : Option String :=
  if (f.name.to_var_ident.eqStr f.name.orig) = true then none else some f.name.orig

/-- The `#[serde(default, skip_serializing_if = "Option::is_none")]` option
emitted by `FieldContext`: present exactly for `Optionnal` field types. -/
def Field.serde_default_skip (f : Field) : Bool :=
  f.field_type.is_optionnal

/-- The wire key serde uses for the field: the `rename` value when present,
else the (unrawed) generated identifier. -/
def Field.wireKey (f : Field) : String :=
  match f.serde_rename with
  | some r => r
  | none => f.name.to_var_ident.sym

/-- Runtime value of a single generated struct field: required fields hold a
JSON value, optional fields hold an optional one. -/
inductive FieldVal
  | req (v : Json)
  | opt (v : Option Json)

/-- The value shape fits the field's type, and an optional payload is not
JSON `null` (a `Some` value serializes as the payload itself). -/
def FieldVal.matchesField : FieldVal → Field → Bool
  | .req _, f => !f.field_type.is_optionnal
  | .opt none, f => f.field_type.is_optionnal
  | .opt (some j), f => f.field_type.is_optionnal && !j.isNull

/-- Serde serialization of one generated field into object entries, per the
emitted attributes: key is `wireKey`; an absent optional value is omitted
when `skip_serializing_if` was emitted, else written as `null`. -/
def Field.encode (f : Field) (v : FieldVal) : List (String × Json) :=
  match v with
  | .req j => [(f.wireKey, j)]
  | .opt none => if f.serde_default_skip then [] else [(f.wireKey, .null)]
  | .opt (some j) => [(f.wireKey, j)]

/-- Serde deserialization of one generated field from object entries, per
the emitted attributes: a missing key yields the absent value when
`default` was emitted; `Option` decodes `null` to the absent value. -/
def Field.decode (f : Field) (entries : List (String × Json)) : Option FieldVal :=
  if f.field_type.is_optionnal then
    match lookupKey entries f.wireKey with
    | none => if f.serde_default_skip then some (.opt none) else none
    | some .null => some (.opt none)
    | some j => some (.opt (some j))
  else
    match lookupKey entries f.wireKey with
    | none => none
    | some j => some (.req j)

/-! ### graphql.rs: `Enum` and the code emitted by `impl ToTokens for Enum` -/

/-- Mirror of `Enum` in `graphql.rs`. -/
structure Enum where
  name : Name
  variants : List Name
deriving DecidableEq, Repr

/-- The `#[serde(rename = ...)]` attribute emitted for every enum variant:
always the variant's original schema name (`#[serde(rename =
#variant_orig_iter)]` in the source, unconditionally). -/
def Enum.variant_serde_rename (v : Name) : Option String :=
  some v.orig

/-- The wire string serde uses for an enum variant: the rename value when
present, else the generated (Pascal-case) variant identifier. -/
def Enum.variantWireName (v : Name) : String :=
  match Enum.variant_serde_rename v with
  | some r => r
  | none => v.to_type_ident.sym

/-- First-match search of the generated `FromStr` match arms: arm `i` tests
the string against variant `i`'s original name. -/
def Enum.fromStrAux : List Name → String → Option Nat
  | [], _ => none
  | v :: rest, s => if v.orig = s then some 0 else (fromStrAux rest s).map (· + 1)

/-- The error message of the generated `FromStr`:
`format!("`{}` is an invalid value for enum {}", s, enum_ident)`. -/
def Enum.error_msg (e : Enum) (s : String) : String :=
  "`" ++ s ++ "` is an invalid value for enum " ++ e.name.to_type_ident.sym

/-- The generated `FromStr` implementation: return the (index of the) first
variant whose original name equals the input, else an
`AppsyncError::new("InvalidStr", ...)` error (modelled as the pair of error
type and message). -/
def Enum.from_str (e : Enum) (s : String) : Except (String × String) Nat :=
  match Enum.fromStrAux e.variants s with
  | some i => .ok i
  | none => .error ("InvalidStr", e.error_msg s)

/-- The generated `Display` implementation: variant `i` writes its original
name (`write!(f, #variant_orig_iter)`). -/
def Enum.displayVariant (e : Enum) (i : Nat) : Option String :=
  (e.variants[i]?).map Name.orig

/-! ### overrides.rs: override directives and their hierarchical maps -/

/-- Mirror of `TypeOverride` in `overrides.rs`: a parsed
`type_override = Type.field[.arg]: TargetType` directive. Identifiers are
modelled as their strings, the target `syn::Type` as its token string. -/
structure TypeOverride where
  type_name : String
  field_name : String
  arg_name : Option String
  type_ident : String
deriving DecidableEq, Repr

/-- Mirror of `ArgTypeOverrides` (`HashMap<ArgName, TypeOverride>`). -/
abbrev ArgTypeOverrides := List (String × TypeOverride)

/-- Mirror of `FieldOverride = (Option<TypeOverride>, ArgTypeOverrides)`. -/
abbrev FieldOverride := Option TypeOverride × ArgTypeOverrides

/-- Mirror of `FieldOverrides` (`HashMap<FieldName, FieldOverride>`). -/
abbrev FieldOverrides := List (String × FieldOverride)

/-- Mirror of `TypeOverrides` (`HashMap<TypeName, FieldOverrides>`). -/
abbrev TypeOverrides := List (String × FieldOverrides)

/-- Modelled from the spec: the parsed name-override directive
`name_override = TypeName[.fieldName]: NewIdentifier` (§4.2, §6). The type
defining it is not under `src/` (only its uses in `graphql.rs` are:
`new_name()`, `field_name()`, `type_name()`). -/
structure NameOverride where
  type_name : String
  field_name : Option String
  new_name : String
deriving DecidableEq, Repr

/-- Modelled from the spec: per-type name overrides, "keyed hierarchically
by declaring-type name, then field/operation name" (§4.2); destructured in
`graphql.rs` as `(type_override, mut field_overrides)`. -/
abbrev TypeNameOverride := Option NameOverride × List (String × NameOverride)

/-- Modelled from the spec: the top-level name-override map, keyed by
declaring type name (§4.2). -/
abbrev NameOverrides := List (String × TypeNameOverride)

/-- Association-list model of `HashMap::remove`: removes the first entry
with the given key, returning the removed value and the remaining map. -/
def removeKey {α : Type} : List (String × α) → String → Option α × List (String × α)
  | [], _ => (none, [])
  | (k, v) :: rest, n =>
    if k = n then (some v, rest)
    else
      let r := removeKey rest n
      (r.1, (k, v) :: r.2)

/-! ### graphql.rs: diagnostics messages -/

/-- Message of the misuse error in `Structure::apply_type_overrides`. -/
def msgArgsOnOps : String := "Using args overrides is only supported on operations"

/-- Message of the unknown-field error in `Structure::apply_type_overrides`
(also used, with a variant wording, by the name-override path). -/
def msgNoField (f t : String) : String := "No field `" ++ f ++ "` in `" ++ t ++ "`"

/-- Message of the unknown-variant error in `Enum::apply_name_overrides`. -/
def msgNoVariant (v t : String) : String := "No variant `" ++ v ++ "` in `" ++ t ++ "`"

/-- Message of the unknown-operation error in
`Operations::apply_type_overrides`. -/
def msgNoOperation (f t : String) : String := "No operation `" ++ f ++ "` in `" ++ t ++ "`"

/-- Message of the unknown-argument error in
`Operation::apply_type_overrides`. -/
def msgNoArgument (a t f : String) : String :=
  "No argument `" ++ a ++ "` in operation `" ++ t ++ "::" ++ f ++ "`"

/-- Message of the unknown-type error for leftover type overrides in
`GraphQLSchema::new`. -/
def msgNoTypeOrInput (t : String) : String := "No type or input named `" ++ t ++ "`"

/-- Message of the unknown-type error for leftover name overrides in
`GraphQLSchema::new`. -/
def msgNoTypeEnumInput (t : String) : String :=
  "No type, enum or input named `" ++ t ++ "`"

/-- Message of the duplicate-schema-definition error in
`GraphQLSchema::new`. -/
def msgTwoSchema : String := "GraphQL schema file has two `schema` definition"

/-! ### graphql.rs: `Structure`, `Operation`, `Operations` and override
application -/

/-- Mirror of `Structure` in `graphql.rs`. -/
structure Structure where
  name : Name
  fields : List Field
deriving DecidableEq, Repr

/-- The directive errors produced for one leftover `FieldOverride`
(`fo.0.into_iter().chain(fo.1.into_values())`, one error per directive). -/
def leftoverDirectives (fov : FieldOverride) : List TypeOverride :=
  fov.1.toList ++ fov.2.map Prod.snd

/-- The field loop of `Structure::apply_type_overrides`: for each field in
order, remove its entry from the override map; argument-level overrides on
a structure field are a misuse error (one per argument directive); a direct
override rewires the field type. Returns the rewritten fields, the leftover
map and the errors in emission order. -/
def structFieldsLoop : List Field → FieldOverrides →
    List Field × FieldOverrides × List String
  | [], tos => ([], tos, [])
  | f :: rest, tos =>
    let r := removeKey tos f.name.orig
    match r.1 with
    | none =>
      let next := structFieldsLoop rest r.2
      (f :: next.1, next.2.1, next.2.2)
    | some fov =>
      let argErrs := fov.2.map (fun _ => msgArgsOnOps)
      let f' := match fov.1 with
        | some tov => { f with field_type := f.field_type.override_type tov.type_ident }
        | none => f
      let next := structFieldsLoop rest r.2
      (f' :: next.1, next.2.1, argErrs ++ next.2.2)

/-- Mirror of `Structure::apply_type_overrides`: run the field loop, then
report every leftover directive as "No field ... in ...". The source
returns `Result<(), syn::Error>` and mutates in place; the model returns
the mutated structure together with the list of error messages (empty list
= `Ok`). -/
def Structure.apply_type_overrides (s : Structure) (tos : FieldOverrides) :
    Structure × List String :=
  let r := structFieldsLoop s.fields tos
  let leftoverErrs := r.2.1.flatMap
    (fun kv => (leftoverDirectives kv.2).map
      (fun tov => msgNoField tov.field_name tov.type_name))
  ({ s with fields := r.1 }, r.2.2 ++ leftoverErrs)

/-- The field loop of `Structure::apply_name_overrides`: rename each field
whose original name has an override. -/
def structNamesLoop : List Field → List (String × NameOverride) →
    List Field × List (String × NameOverride)
  | [], fos => ([], fos)
  | f :: rest, fos =>
    let r := removeKey fos f.name.orig
    let f' := match r.1 with
      | some no => { f with name := f.name.override_name no.new_name }
      | none => f
    let next := structNamesLoop rest r.2
    (f' :: next.1, next.2)

/-- Mirror of `Structure::apply_name_overrides`: rename the structure
and/or its fields; leftover field renames are "No field ... in ..."
errors. -/
def Structure.apply_name_overrides (s : Structure) (tno : TypeNameOverride) :
    Structure × List String :=
  let s := match tno.1 with
    | some no => { s with name := s.name.override_name no.new_name }
    | none => s
  let r := structNamesLoop s.fields tno.2
  let errs := r.2.map
    (fun kv => msgNoField (kv.2.field_name.getD "") kv.2.type_name)
  ({ s with fields := r.1 }, errs)

/-- The variant loop of `Enum::apply_name_overrides`. -/
def enumVariantsLoop : List Name → List (String × NameOverride) →
    List Name × List (String × NameOverride)
  | [], fos => ([], fos)
  | v :: rest, fos =>
    let r := removeKey fos v.orig
    let v' := match r.1 with
      | some no => v.override_name no.new_name
      | none => v
    let next := enumVariantsLoop rest r.2
    (v' :: next.1, next.2)

/-- Mirror of `Enum::apply_name_overrides`. -/
def Enum.apply_name_overrides (e : Enum) (tno : TypeNameOverride) :
    Enum × List String :=
  let e := match tno.1 with
    | some no => { e with name := e.name.override_name no.new_name }
    | none => e
  let r := enumVariantsLoop e.variants tno.2
  let errs := r.2.map
    (fun kv => msgNoVariant (kv.2.field_name.getD "") kv.2.type_name)
  ({ e with variants := r.1 }, errs)

/-- Mirror of `Operation` in `graphql.rs`. -/
structure Operation where
  name : Name
  args : List Field
  return_type : FieldType
deriving DecidableEq, Repr

/-- The argument loop of `Operation::apply_type_overrides`. -/
def opArgsLoop : List Field → ArgTypeOverrides → List Field × ArgTypeOverrides
  | [], argos => ([], argos)
  | a :: rest, argos =>
    let r := removeKey argos a.name.orig
    let a' := match r.1 with
      | some tov => { a with field_type := a.field_type.override_type tov.type_ident }
      | none => a
    let next := opArgsLoop rest r.2
    (a' :: next.1, next.2)

/-- Mirror of `Operation::apply_type_overrides`: override the return type
when a direct override is present, then the arguments; leftover argument
directives are "No argument ... in operation ..." errors (the source reads
the names from the directive itself; `arg_name` is always set there). -/
def Operation.apply_type_overrides (op : Operation) (fov : FieldOverride) :
    Operation × List String :=
  let op := match fov.1 with
    | some tov => { op with return_type := op.return_type.override_type tov.type_ident }
    | none => op
  let r := opArgsLoop op.args fov.2
  let errs := r.2.map
    (fun kv => msgNoArgument (kv.2.arg_name.getD "") kv.2.type_name kv.2.field_name)
  ({ op with args := r.1 }, errs)

/-- The operation loop of `Operations::apply_type_overrides`. -/
def opsLoop : List Operation → FieldOverrides →
    List Operation × FieldOverrides × List String
  | [], tos => ([], tos, [])
  | op :: rest, tos =>
    let r := removeKey tos op.name.orig
    match r.1 with
    | none =>
      let next := opsLoop rest r.2
      (op :: next.1, next.2.1, next.2.2)
    | some fov =>
      let applied := op.apply_type_overrides fov
      let next := opsLoop rest r.2
      (applied.1 :: next.1, next.2.1, applied.2 ++ next.2.2)

/-- Mirror of `Operations::apply_type_overrides`: leftover entries are
"No operation ... in ..." errors, one per directive. -/
def Operations.apply_type_overrides (ops : List Operation) (tos : FieldOverrides) :
    List Operation × List String :=
  let r := opsLoop ops tos
  let leftoverErrs := r.2.1.flatMap
    (fun kv => (leftoverDirectives kv.2).map
      (fun tov => msgNoOperation tov.field_name tov.type_name))
  (r.1, r.2.2 ++ leftoverErrs)

/-! ### graphql.rs: `SchemaDefinition`, the parsed document and
`GraphQLSchema::new` -/

/-- Mirror of `OperationKind` in `common.rs`. -/
inductive OperationKind
  | query
  | mutation
  | subscription
deriving DecidableEq, Repr

/-- Mirror of `SchemaDefinition` in `graphql.rs`. -/
structure SchemaDefinition where
  query : String
  mutation : String
  subscription : String
deriving DecidableEq, Repr

/-- Mirror of `impl Default for SchemaDefinition`. -/
def SchemaDefinition.deflt : SchemaDefinition :=
  { query := "Query", mutation := "Mutation", subscription := "Subscription" }

/-- Mirror of `SchemaDefinition::schema_definition`: classify a type name
as a root, testing query, then mutation, then subscription. -/
def SchemaDefinition.schema_definition (sd : SchemaDefinition) (name : String) :
    Option OperationKind :=
  if name = sd.query then some .query
  else if name = sd.mutation then some .mutation
  else if name = sd.subscription then some .subscription
  else none

/-- The `graphql_parser::schema::SchemaDefinition` payload (optional root
names). -/
structure SchemaDefRaw where
  query : Option String
  mutation : Option String
  subscription : Option String
deriving DecidableEq, Repr

/-- Mirror of `impl From<graphql_parser SchemaDefinition> for
SchemaDefinition`: start from the default and overwrite the present
fields. -/
def SchemaDefinition.ofRaw (r : SchemaDefRaw) : SchemaDefinition :=
  { query := r.query.getD SchemaDefinition.deflt.query,
    mutation := r.mutation.getD SchemaDefinition.deflt.mutation,
    subscription := r.subscription.getD SchemaDefinition.deflt.subscription }

/-- The `graphql_parser::schema::InputValue` data used by the builder. -/
structure GInputValue where
  name : String
  value_type : GType
deriving DecidableEq, Repr

/-- The `graphql_parser::schema::Field` data used by the builder. -/
structure GField where
  name : String
  arguments : List GInputValue
  field_type : GType
deriving DecidableEq, Repr

/-- The `graphql_parser::schema::ObjectType` data used by the builder. -/
structure GObjectType where
  name : String
  fields : List GField
deriving DecidableEq, Repr

/-- The `graphql_parser::schema::EnumType` data used by the builder. -/
structure GEnumType where
  name : String
  values : List String
deriving DecidableEq, Repr

/-- The `graphql_parser::schema::InputObjectType` data used by the
builder. -/
structure GInputObjectType where
  name : String
  fields : List GInputValue
deriving DecidableEq, Repr

/-- The top-level declarations of a parsed schema document
(`graphql_parser::schema::Definition`). Scalar, interface, union,
type-extension and directive declarations carry no data the builder reads
(it skips them). -/
inductive Definition
  | schemaDef (raw : SchemaDefRaw)
  | objectType (o : GObjectType)
  | enumType (e : GEnumType)
  | inputObjectType (i : GInputObjectType)
  | scalarType
  | interfaceType
  | unionType
  | typeExtension
  | directiveDefinition
deriving DecidableEq, Repr

/-- Whether a declaration is a `schema { ... }` block. -/
def isSchemaDef : Definition → Bool
  | .schemaDef _ => true
  | _ => false

/-- Mirror of `impl From<graphql Field> for Field`. -/
def Field.ofGField (g : GField) : Field :=
  { name := Name.ofString g.name, field_type := FieldType.ofGType g.field_type }

/-- Mirror of `impl From<graphql InputValue> for Field`. -/
def Field.ofGInputValue (g : GInputValue) : Field :=
  { name := Name.ofString g.name, field_type := FieldType.ofGType g.value_type }

/-- Mirror of `impl From<graphql ObjectType> for Structure`. -/
def Structure.ofObjectType (o : GObjectType) : Structure :=
  { name := Name.ofString o.name, fields := o.fields.map Field.ofGField }

/-- Mirror of `impl From<graphql InputObjectType> for Structure`. -/
def Structure.ofInputObjectType (i : GInputObjectType) : Structure :=
  { name := Name.ofString i.name, fields := i.fields.map Field.ofGInputValue }

/-- Mirror of `impl From<graphql EnumType> for Enum`. -/
def Enum.ofEnumType (e : GEnumType) : Enum :=
  { name := Name.ofString e.name, variants := e.values.map Name.ofString }

/-- Mirror of `impl From<graphql Field> for Operation`. -/
def Operation.ofGField (g : GField) : Operation :=
  { name := Name.ofString g.name,
    args := g.arguments.map Field.ofGInputValue,
    return_type := FieldType.ofGType g.field_type }

/-- Mirror of `impl From<graphql ObjectType> for Operations`. -/
def Operations.ofObjectType (o : GObjectType) : List Operation :=
  o.fields.map Operation.ofGField

/-- Mirror of `doc.definitions.iter().position(|def| matches!(def,
Definition::SchemaDefinition(_)))`. -/
def positionSchemaDef : List Definition → Option Nat
  | [] => none
  | d :: rest =>
    if isSchemaDef d then some 0 else (positionSchemaDef rest).map (· + 1)

/-- Mirror of `Vec::swap_remove`: remove index `i`, moving the last element
into its place. -/
def swapRemove {α : Type} (l : List α) (i : Nat) : List α :=
  match l.getLast? with
  | none => []
  | some last => (l.set i last).dropLast

/-- The first phase of `GraphQLSchema::new`: locate the (first) schema
declaration, `swap_remove` it from the document and build the
`SchemaDefinition` (default when absent). -/
def resolveSchema (doc : List Definition) : SchemaDefinition × List Definition :=
  match positionSchemaDef doc with
  | some i =>
    let sd := match doc[i]? with
      | some (.schemaDef raw) => SchemaDefinition.ofRaw raw
      | _ => SchemaDefinition.deflt  -- unreachable: position found a schema def
    (sd, swapRemove doc i)
  | none => (SchemaDefinition.deflt, doc)

/-- The mutable state of the definition loop in `GraphQLSchema::new`. -/
structure BuildState where
  queries : Option (List Operation)
  mutations : Option (List Operation)
  subscriptions : Option (List Operation)
  structures : List Structure
  enums : List Enum
  errors : List String
  tos : TypeOverrides
  nos : NameOverrides
deriving Repr

/-- The initial loop state of `GraphQLSchema::new`. -/
def BuildState.init (tos : TypeOverrides) (nos : NameOverrides) : BuildState :=
  { queries := none, mutations := none, subscriptions := none,
    structures := [], enums := [], errors := [], tos := tos, nos := nos }

/-- The `TypeDefinition::Object` arm of the loop in `GraphQLSchema::new`:
a root-named object becomes the corresponding `Operations` list (replacing
any previous one) with its type overrides applied; any other object becomes
a `Structure` with type and name overrides applied. -/
def stepObject (sd : SchemaDefinition) (st : BuildState) (o : GObjectType) :
    BuildState :=
  match sd.schema_definition o.name with
  | some kind =>
    let r := removeKey st.tos o.name
    let ops := Operations.ofObjectType o
    let applied := match r.1 with
      | some fos => Operations.apply_type_overrides ops fos
      | none => (ops, [])
    let st := { st with tos := r.2, errors := st.errors ++ applied.2 }
    match kind with
    | .query => { st with queries := some applied.1 }
    | .mutation => { st with mutations := some applied.1 }
    | .subscription => { st with subscriptions := some applied.1 }
  | none =>
    let s := Structure.ofObjectType o
    let r := removeKey st.tos s.name.orig
    let applied := match r.1 with
      | some fos => s.apply_type_overrides fos
      | none => (s, [])
    let rn := removeKey st.nos applied.1.name.orig
    let applied2 := match rn.1 with
      | some tno => applied.1.apply_name_overrides tno
      | none => (applied.1, [])
    { st with
      tos := r.2
      nos := rn.2
      errors := st.errors ++ applied.2 ++ applied2.2
      structures := st.structures ++ [applied2.1] }

/-- The `TypeDefinition::Enum` arm of the loop in `GraphQLSchema::new`. -/
def stepEnum (st : BuildState) (e : GEnumType) : BuildState :=
  let en := Enum.ofEnumType e
  let rn := removeKey st.nos en.name.orig
  let applied := match rn.1 with
    | some tno => en.apply_name_overrides tno
    | none => (en, [])
  { st with
    nos := rn.2
    errors := st.errors ++ applied.2
    enums := st.enums ++ [applied.1] }

/-- The `TypeDefinition::InputObject` arm of the loop in
`GraphQLSchema::new`. -/
def stepInput (st : BuildState) (i : GInputObjectType) : BuildState :=
  let s := Structure.ofInputObjectType i
  let r := removeKey st.tos s.name.orig
  let applied := match r.1 with
    | some fos => s.apply_type_overrides fos
    | none => (s, [])
  let rn := removeKey st.nos applied.1.name.orig
  let applied2 := match rn.1 with
    | some tno => applied.1.apply_name_overrides tno
    | none => (applied.1, [])
  { st with
    tos := r.2
    nos := rn.2
    errors := st.errors ++ applied.2 ++ applied2.2
    structures := st.structures ++ [applied2.1] }

/-- One iteration of the definition loop of `GraphQLSchema::new` for a
non-schema declaration (scalar/interface/union/extension/directive
declarations are skipped). -/
def stepDef (sd : SchemaDefinition) (st : BuildState) : Definition → BuildState
  | .objectType o => stepObject sd st o
  | .enumType e => stepEnum st e
  | .inputObjectType i => stepInput st i
  | _ => st

/-- The definition loop of `GraphQLSchema::new`: a second schema
declaration aborts immediately with the duplicate-schema error (`return
Err(...)` in the source), everything else steps the state. -/
def buildLoop (sd : SchemaDefinition) : BuildState → List Definition →
    Except (List String) BuildState
  | st, [] => .ok st
  | st, d :: rest =>
    match d with
    | .schemaDef _ => .error [msgTwoSchema]
    | _ => buildLoop sd (stepDef sd st d) rest

/-- The errors reported for type-override directives left unconsumed at the
end of `GraphQLSchema::new` ("No type or input named ..."). -/
def leftoverTosErrors (tos : TypeOverrides) : List String :=
  tos.flatMap (fun kv => kv.2.flatMap
    (fun fkv => (leftoverDirectives fkv.2).map
      (fun tov => msgNoTypeOrInput tov.type_name)))

/-- The errors reported for name-override directives left unconsumed at the
end of `GraphQLSchema::new` ("No type, enum or input named ..."). -/
def leftoverNosErrors (nos : NameOverrides) : List String :=
  nos.flatMap (fun kv =>
    (kv.2.1.toList ++ kv.2.2.map Prod.snd).map
      (fun no => msgNoTypeEnumInput no.type_name))

/-- The loop-plus-leftover-reporting phase of `GraphQLSchema::new`: the
final state with leftover-override errors appended, or the fatal
duplicate-schema error. -/
def GraphQLSchema.build (doc : List Definition) (tos : TypeOverrides)
    (nos : NameOverrides) : Except (List String) BuildState :=
  (buildLoop (resolveSchema doc).1 (BuildState.init tos nos) (resolveSchema doc).2).map
    (fun st => { st with
      errors := st.errors ++ leftoverTosErrors st.tos ++ leftoverNosErrors st.nos })

/-- Mirror of `GraphQLSchema` in `graphql.rs`. -/
structure GraphQLSchema where
  queries : List Operation
  mutations : List Operation
  subscriptions : List Operation
  structures : List Structure
  enums : List Enum
deriving Repr

/-- Mirror of `GraphQLSchema::new`: run the build phase; succeed with the
assembled schema (absent roots default to empty operation lists) when no
error was collected, fail with the combined error list otherwise. -/
def GraphQLSchema.new (doc : List Definition) (tos : TypeOverrides)
    (nos : NameOverrides) : Except (List String) GraphQLSchema :=
  match GraphQLSchema.build doc tos nos with
  | .error e => .error e
  | .ok st =>
    if st.errors.isEmpty then
      .ok { queries := st.queries.getD [], mutations := st.mutations.getD [],
            subscriptions := st.subscriptions.getD [],
            structures := st.structures, enums := st.enums }
    else .error st.errors

/-- The combined diagnostic of a build: the collected error messages
(specification-side extractor used to state theorems). -/
def buildErrors (doc : List Definition) (tos : TypeOverrides)
    (nos : NameOverrides) : List String :=
  match GraphQLSchema.build doc tos nos with
  | .ok st => st.errors
  | .error e => e

/-- The structures of the built model (specification-side extractor). -/
def buildStructures (doc : List Definition) (tos : TypeOverrides)
    (nos : NameOverrides) : List Structure :=
  match GraphQLSchema.build doc tos nos with
  | .ok st => st.structures
  | .error _ => []

/-- The enums of the built model (specification-side extractor). -/
def buildEnums (doc : List Definition) (tos : TypeOverrides)
    (nos : NameOverrides) : List Enum :=
  match GraphQLSchema.build doc tos nos with
  | .ok st => st.enums
  | .error _ => []

/-- The map key a declaration consumes from the type-override map. -/
def tosKeyOf : Definition → Option String
  | .objectType o => some o.name
  | .inputObjectType i => some i.name
  | _ => none

/-! ### lambda-appsync/src/lib.rs: `arg_from_json` and the generated
argument extraction -/

/-- The message of the `InvalidArgs` error of `arg_from_json` (the source
appends the underlying serde error text in parentheses; the model keeps
the fixed part, which already names the argument). -/
def argErrorMsg (argName : String) : String :=
  "Argument \"" ++ argName ++ "\" is not the expected format"

/-- Mirror of `arg_from_json`, generic over the serde deserializer of the
target type (`T: DeserializeOwned` in the source, modelled as a partial
decoding function on JSON): take the argument value out of the argument
bag (absent keys yield `null`), decode it, and report an `InvalidArgs`
error naming the argument on failure. Returns the result together with the
mutated argument bag. -/
def arg_from_json (args : Json) (argName : String) (dec : Json → Option Json) :
    Except (String × String) Json × Json :=
  let r := args.takeKey argName
  match dec r.1 with
  | some v => (.ok v, r.2)
  | none => (.error ("InvalidArgs", argErrorMsg argName), r.2)

/-- An argument slot of a generated `operation_arguments` function: the
argument's original schema name paired with the serde deserializer of its
declared type. -/
abbrev ArgDecoder := String × (Json → Option Json)

/-- The body of the generated `operation_arguments` function:
`(arg_from_json(&mut args, name1)?, arg_from_json(&mut args, name2)?, ...)`
— sequential extraction with `?`-short-circuit on the first failure. -/
def extractArgsAux : Json → List ArgDecoder → Except (String × String) (List Json × Json)
  | args, [] => .ok ([], args)
  | args, (n, d) :: rest =>
    match arg_from_json args n d with
    | (.error e, _) => .error e
    | (.ok v, args') =>
      match extractArgsAux args' rest with
      | .error e => .error e
      | .ok vs => .ok (v :: vs.1, vs.2)

/-- The generated `operation_arguments` function: the decoded argument
values, or the first extraction error. -/
def operation_arguments (args : Json) (decs : List ArgDecoder) :
    Except (String × String) (List Json) :=
  (extractArgsAux args decs).map Prod.fst

/-- The generated operation body (`appsync_operation` macro):
`let (args...,) = operation_arguments(&mut event)?;` followed by the user
handler — extraction failures return before the handler runs. -/
def dispatchOperation (args : Json) (decs : List ArgDecoder)
    (handler : List Json → Except (String × String) Json) :
    Except (String × String) Json :=
  match operation_arguments args decs with
  | .error e => .error e
  | .ok vs => handler vs

/-- Serde's deserializer for `Option<T>` given the deserializer for `T`:
JSON `null` decodes to the absent value (modelled as `null`), anything else
decodes through `T`. -/
def decodeOption (d : Json → Option Json) : Json → Option Json :=
  fun j => if j.isNull then some .null else d j

/-- The first argument whose (absent-defaults-to-null) value fails its
decoder (specification-side view used to state the error-naming law). -/
def firstFailingArg (args : Json) : List ArgDecoder → Option String
  | [] => none
  | (n, d) :: rest =>
    if (d ((args.get n).getD .null)).isSome then firstFailingArg args rest else some n

/-- A concrete string-only deserializer (used in witnesses). -/
def decodeStrOnly : Json → Option Json
  | .str s => some (.str s)
  | _ => none

/-- A concrete number-only deserializer (used in witnesses). -/
def decodeNumOnly : Json → Option Json
  | .num k => some (.num k)
  | _ => none

/-- A concrete boolean-only deserializer (used in witnesses). -/
def decodeBoolOnly : Json → Option Json
  | .bool b => some (.bool b)
  | _ => none

/-- The effect of an optional direct type-override directive on a field
type (specification-side view of the `if let Some(...) = field_override`
branches). -/
def applyDirectOverride (fo : Option TypeOverride) (ft : FieldType) : FieldType :=
  match fo with
  | some tov => ft.override_type tov.type_ident
  | none => ft

/-! ### Concrete fixtures for witness statements over the override
machinery -/

/-- Fixture: the `id` field of the example `Player` structure. -/
def c5exFId : Field :=
  { name := Name.ofString "id", field_type := .scalar .id }

/-- Fixture: the `name` field of the example `Player` structure. -/
def c5exFName : Field :=
  { name := Name.ofString "name", field_type := .scalar .string }

/-- Fixture: an example `Player` structure with two fields. -/
def c5exS : Structure :=
  { name := Name.ofString "Player", fields := [c5exFId, c5exFName] }

/-- Fixture: a valid direct override `Player.name: PlayerName`. -/
def c5exTovP : TypeOverride :=
  { type_name := "Player", field_name := "name", arg_name := none,
    type_ident := "PlayerName" }

/-- Fixture: an argument-level override misused on a structure field. -/
def c5exAtoMis : TypeOverride :=
  { type_name := "Player", field_name := "name", arg_name := some "a",
    type_ident := "X" }

/-- Fixture: field overrides with a valid direct override plus an
argument-level misuse on the same structure field. -/
def c5exFosA : FieldOverrides :=
  [("name", (some c5exTovP, [("a", c5exAtoMis)]))]

/-- Fixture: a direct override of the unknown field `Player.bogus`. -/
def c5exTovB : TypeOverride :=
  { type_name := "Player", field_name := "bogus", arg_name := none,
    type_ident := "X" }

/-- Fixture: an argument override under the unknown field `Player.bogus`. -/
def c5exAtoB : TypeOverride :=
  { type_name := "Player", field_name := "bogus", arg_name := some "a",
    type_ident := "X" }

/-- Fixture: field overrides targeting only the unknown field `bogus`. -/
def c5exFosB : FieldOverrides :=
  [("bogus", (some c5exTovB, [("a", c5exAtoB)]))]

/-- Fixture: the `id` argument of the example `player` operation. -/
def c5exArg : Field :=
  { name := Name.ofString "id", field_type := .scalar .id }

/-- Fixture: an example `player` operation. -/
def c5exOp : Operation :=
  { name := Name.ofString "player", args := [c5exArg],
    return_type := .optionnal (.custom (Name.ofString "Player")) }

/-- Fixture: the example operations list. -/
def c5exOps : List Operation := [c5exOp]

/-- Fixture: a return-type override `Query.player: NewPlayer`. -/
def c5exOTov : TypeOverride :=
  { type_name := "Query", field_name := "player", arg_name := none,
    type_ident := "NewPlayer" }

/-- Fixture: an argument override `Query.player.id: WeaponId`. -/
def c5exAOTov : TypeOverride :=
  { type_name := "Query", field_name := "player", arg_name := some "id",
    type_ident := "WeaponId" }

/-- Fixture: operation overrides on `player` (return type and `id`
argument, both valid). -/
def c5exOosA : FieldOverrides :=
  [("player", (some c5exOTov, [("id", c5exAOTov)]))]

/-- Fixture: a direct override of the unknown operation `Query.bogus`. -/
def c5exOTovB : TypeOverride :=
  { type_name := "Query", field_name := "bogus", arg_name := none,
    type_ident := "X" }

/-- Fixture: operation overrides targeting only the unknown `bogus`. -/
def c5exOosB : FieldOverrides :=
  [("bogus", (some c5exOTovB, []))]

/-- Fixture: an override of the unknown argument `Query.player.bogus`. -/
def c5exAOTovB : TypeOverride :=
  { type_name := "Query", field_name := "player", arg_name := some "bogus",
    type_ident := "X" }

/-- Fixture: operation overrides with only the unknown-argument
directive. -/
def c5exOosC : FieldOverrides :=
  [("player", (none, [("bogus", c5exAOTovB)]))]

/-- Fixture: the example object type of the schema document. -/
def c5exObj : GObjectType :=
  { name := "Player",
    fields := [{ name := "id", arguments := [],
                 field_type := .nonNull (.named "ID") },
               { name := "name", arguments := [],
                 field_type := .nonNull (.named "String") }] }

/-- Fixture: a single-object schema document. -/
def c5exDoc : List Definition := [.objectType c5exObj]

/-- Fixture: valid field overrides for the declared type `Player`. -/
def c5exTfosP : FieldOverrides := [("name", (some c5exTovP, []))]

/-- Fixture: a direct override naming the undeclared type `Nope`. -/
def c5exTovN : TypeOverride :=
  { type_name := "Nope", field_name := "f", arg_name := none, type_ident := "X" }

/-- Fixture: field overrides under the undeclared type `Nope`. -/
def c5exTfosN : FieldOverrides := [("f", (some c5exTovN, []))]

/-- Fixture: the top-level type-override map, one declared and one
undeclared target. -/
def c5exTos : TypeOverrides := [("Player", c5exTfosP), ("Nope", c5exTfosN)]

/-! ## Helper lemmas -/

/-- ASCII lowercase and uppercase are disjoint. -/
theorem isLower_isUpper_false (c : Char) (h : c.isLower = true) : c.isUpper = false := by
  simp only [Char.isLower, Char.isUpper, Bool.and_eq_true, decide_eq_true_eq] at h
  simp only [Char.isUpper, Bool.and_eq_false_iff, decide_eq_false_iff_not]
  right
  intro hc
  exact absurd (UInt32.le_trans h.1 hc) (by decide)

/-! ## Claim C1: the nullability compilation table -/

/-- Claim C1: compiling a GraphQL type expression over base type `n`
follows exactly the nullability table: `n` gives `Optional(X)`, `n!` gives
`X`, `[n]` gives `Optional(List(Optional(X)))`, `[n!]` gives
`Optional(List(X))`, `[n]!` gives `List(Optional(X))`, `[n!]!` gives
`List(X)`, where `X` is `Scalar(s)` when `n` names a built-in scalar and
`Custom(n)` otherwise. The equalities are exact, so no other wrapper
appears anywhere. -/
theorem c1_nullability_table (n : String) (h : isGraphQLName n = true) (s : Scalar) :
    FieldType.ofGType (.named n) = .optionnal (FieldType.from_string n)
  ∧ FieldType.ofGType (.nonNull (.named n)) = FieldType.from_string n
  ∧ FieldType.ofGType (.list (.named n)) =
      .optionnal (.list (.optionnal (FieldType.from_string n)))
  ∧ FieldType.ofGType (.list (.nonNull (.named n))) =
      .optionnal (.list (FieldType.from_string n))
  ∧ FieldType.ofGType (.nonNull (.list (.named n))) =
      .list (.optionnal (FieldType.from_string n))
  ∧ FieldType.ofGType (.nonNull (.list (.nonNull (.named n)))) =
      .list (FieldType.from_string n)
  ∧ (Scalar.try_from n = some s → FieldType.from_string n = .scalar s)
  ∧ (Scalar.try_from n = none → FieldType.from_string n = .custom (Name.ofString n)) := by
  refine ⟨rfl, rfl, rfl, rfl, rfl, rfl, ?_, ?_⟩
  · intro hs
    simp [FieldType.from_string, hs]
  · intro hs
    simp [FieldType.from_string, hs]

/-- Witness for C1 at the concrete base type `Player`. -/
theorem c1_nullability_table_witness :
    isGraphQLName "Player" = true
  ∧ (FieldType.ofGType (.named "Player") = .optionnal (FieldType.from_string "Player")
  ∧ FieldType.ofGType (.nonNull (.named "Player")) = FieldType.from_string "Player"
  ∧ FieldType.ofGType (.list (.named "Player")) =
      .optionnal (.list (.optionnal (FieldType.from_string "Player")))
  ∧ FieldType.ofGType (.list (.nonNull (.named "Player"))) =
      .optionnal (.list (FieldType.from_string "Player"))
  ∧ FieldType.ofGType (.nonNull (.list (.named "Player"))) =
      .list (.optionnal (FieldType.from_string "Player"))
  ∧ FieldType.ofGType (.nonNull (.list (.nonNull (.named "Player")))) =
      .list (FieldType.from_string "Player")
  ∧ (Scalar.try_from "Player" = some Scalar.string →
      FieldType.from_string "Player" = .scalar Scalar.string)
  ∧ (Scalar.try_from "Player" = none →
      FieldType.from_string "Player" = .custom (Name.ofString "Player"))) :=
  ⟨by decide, c1_nullability_table "Player" (by decide) Scalar.string⟩

/-! ## Claim C2: type overriding targets the innermost leaf -/

/-- Claim C2: `FieldType::override_type` preserves every enclosing
List/Optional layer (the wrapper spine is unchanged), replaces only the
innermost leaf with the override target, and is idempotent. -/
theorem c2_override_targets_leaf (f : FieldType) (t : String) :
    (f.override_type t).wrapperSpine = f.wrapperSpine
  ∧ (f.override_type t).leaf = .overriden t
  ∧ (f.override_type t).override_type t = f.override_type t := by
  induction f <;>
    simp_all [FieldType.override_type, FieldType.wrapperSpine, FieldType.leaf]

/-! ## Claim C8: case classification -/

/-- Claim C8: `CaseType::case` classifies a nonempty identifier by its
first character and the character classes of the rest: uppercase-led with
an uppercase-or-underscore tail is UPPER_CASE, uppercase-led otherwise is
PascalCase, lowercase-led with a lowercase-or-underscore tail is
snake_case, lowercase-led otherwise is camelCase; in particular a one-word
all-lowercase identifier is snake_case and a one-word capitalized
identifier is PascalCase. -/
theorem c8_case_classification (c : Char) (cs : List Char) :
    (c.isUpper = true → cs.all (fun x => x.isUpper || x = '_') = true →
      CaseType.case (String.mk (c :: cs)) = some .upper)
  ∧ (c.isUpper = true → cs.all (fun x => x.isUpper || x = '_') = false →
      CaseType.case (String.mk (c :: cs)) = some .pascal)
  ∧ (c.isLower = true → cs.all (fun x => x.isLower || x = '_') = true →
      CaseType.case (String.mk (c :: cs)) = some .snake)
  ∧ (c.isLower = true → cs.all (fun x => x.isLower || x = '_') = false →
      CaseType.case (String.mk (c :: cs)) = some .camel)
  ∧ CaseType.case "hello" = some .snake
  ∧ CaseType.case "Hello" = some .pascal := by
  refine ⟨?_, ?_, ?_, ?_, by decide, by decide⟩ <;> intro h1 h2
  · simp [CaseType.case, CaseType.caseList, String.toList, h1, h2]
  · simp [CaseType.case, CaseType.caseList, String.toList, h1, h2]
  · simp [CaseType.case, CaseType.caseList, String.toList, isLower_isUpper_false c h1, h2]
  · simp [CaseType.case, CaseType.caseList, String.toList, isLower_isUpper_false c h1, h2]

/-- Witness for C8 at `pId` (camel) exercising the lowercase-led branch. -/
theorem c8_case_classification_witness :
    Char.isLower 'p' = true
  ∧ ['I', 'd'].all (fun x => x.isLower || x = '_') = false
  ∧ CaseType.case (String.mk ('p' :: ['I', 'd'])) = some .camel :=
  ⟨by decide, by decide,
    (c8_case_classification 'p' ['I', 'd']).2.2.2.1 (by decide) (by decide)⟩

/-! ## Claims C3/C4: wire names under renaming -/

/-- A raw identifier can only compare equal to a string that spells the
`r#` prefix. -/
theorem eqStr_raw_shape (i : RustIdent) (s : String) (hr : i.raw = true)
    (he : i.eqStr s = true) : ∃ rest, s.toList = 'r' :: '#' :: rest := by
  unfold RustIdent.eqStr at he
  rw [hr] at he
  simp only [if_true] at he
  split at he
  · next rest heq => exact ⟨rest, heq⟩
  · exact absurd he (by simp)

/-- No GraphQL name contains `#`, so its character list never starts with
`r#`. -/
theorem graphql_name_no_hash (s : String) (hg : isGraphQLName s = true)
    (rest : List Char) (hl : s.toList = 'r' :: '#' :: rest) : False := by
  unfold isGraphQLName at hg
  rw [hl] at hg
  simp [isGraphQLNameChar] at hg

/-- The serde wire key of an emitted field is always the original schema
name: either the generated identifier already equals it, or a
`serde(rename)` back to it is emitted. -/
theorem wireKey_eq_orig (f : Field) (hg : isGraphQLName f.name.orig = true) :
    f.wireKey = f.name.orig := by
  unfold Field.wireKey Field.serde_rename
  cases he : f.name.to_var_ident.eqStr f.name.orig with
  | false => simp [he]
  | true =>
    simp only [he, if_true]
    cases hr : f.name.to_var_ident.raw with
    | false =>
      unfold RustIdent.eqStr at he
      rw [hr] at he
      simp only [Bool.false_eq_true, if_false] at he
      exact eq_of_beq he
    | true =>
      obtain ⟨rest, hl⟩ := eqStr_raw_shape _ _ hr he
      exact absurd (graphql_name_no_hash _ hg rest hl) (fun h => h)

/-- Claim C3: for every field whose schema name is a GraphQL name, the
serialized wire key is the original name `orig` (a serde rename back to
`orig` is emitted whenever the generated identifier differs), so renaming
never changes the JSON key; serializing then deserializing a well-shaped
value through the (possibly renamed) field reproduces it; for enum
variants, a serde rename to the original name is always emitted. -/
theorem c3_wire_name_stability (f : Field) (hg : isGraphQLName f.name.orig = true)
    (v : FieldVal) (n : Name) :
    f.wireKey = f.name.orig
  ∧ (f.name.to_var_ident.eqStr f.name.orig = false → f.serde_rename = some f.name.orig)
  ∧ (v.matchesField f = true → f.decode (f.encode v) = some v)
  ∧ Enum.variant_serde_rename n = some n.orig := by
  refine ⟨wireKey_eq_orig f hg, ?_, ?_, rfl⟩
  · intro he
    simp [Field.serde_rename, he]
  · intro hv
    cases v with
    | req j =>
      simp only [FieldVal.matchesField, Bool.not_eq_true'] at hv
      simp [Field.encode, Field.decode, lookupKey, hv]
    | opt o =>
      cases o with
      | none =>
        simp only [FieldVal.matchesField] at hv
        simp [Field.encode, Field.decode, Field.serde_default_skip, lookupKey, hv]
      | some j =>
        simp only [FieldVal.matchesField, Bool.and_eq_true, Bool.not_eq_true'] at hv
        cases j <;>
          simp_all [Field.encode, Field.decode, Field.serde_default_skip,
            lookupKey, Json.isNull]

/-- Witness for C3 at a concrete renamed field (`name` renamed to `email`)
and a concrete value. -/
theorem c3_wire_name_stability_witness :
    isGraphQLName "name" = true
  ∧ Field.wireKey
      { name := (Name.ofString "name").override_name "email",
        field_type := .scalar .string } = "name"
  ∧ Field.decode
      { name := (Name.ofString "name").override_name "email",
        field_type := .scalar .string }
      (Field.encode
        { name := (Name.ofString "name").override_name "email",
          field_type := .scalar .string } (.req (.str "Test Player")))
      = some (.req (.str "Test Player")) := by
  have h := c3_wire_name_stability
    { name := (Name.ofString "name").override_name "email", field_type := .scalar .string }
    (by decide) (.req (.str "Test Player")) (Name.ofString "X")
  exact ⟨by decide, h.1, h.2.2.1 (by decide)⟩

/-- Counterexample for C4: a field declared `name` renamed to
`player_name` still serializes under the wire key `name`, not under the
override string; an enum variant `PYTHON` renamed to `Snake` keeps the
wire string `PYTHON`. -/
theorem c4_counterexample :
    (Field.wireKey
      { name := (Name.ofString "name").override_name "player_name",
        field_type := .scalar .string } = "name")
  ∧ ¬ (Field.wireKey
      { name := (Name.ofString "name").override_name "player_name",
        field_type := .scalar .string } = "player_name")
  ∧ Enum.variantWireName ((Name.ofString "PYTHON").override_name "Snake") = "PYTHON"
  ∧ ¬ Enum.variantWireName ((Name.ofString "PYTHON").override_name "Snake") = "Snake" := by
  refine ⟨by decide, by decide, by decide, by decide⟩

/-- Claim C4 (amended): the wire serialization name of every emitted field
and enum variant is always the original schema-declared name `orig`, even
when an explicit name override was applied — the override changes only the
generated identifier, never the wire name. -/
theorem c4_wire_name_always_orig (f : Field) (hg : isGraphQLName f.name.orig = true)
    (n : Name) :
    f.wireKey = f.name.orig ∧ Enum.variantWireName n = n.orig :=
  ⟨wireKey_eq_orig f hg, rfl⟩

/-- Witness for the amended C4 at a renamed field and a renamed variant. -/
theorem c4_wire_name_always_orig_witness :
    isGraphQLName "playerName" = true
  ∧ Field.wireKey
      { name := (Name.ofString "playerName").override_name "nick",
        field_type := .scalar .id } = "playerName"
  ∧ Enum.variantWireName ((Name.ofString "RUST").override_name "Iron") = "RUST" := by
  have h := c4_wire_name_always_orig
    { name := (Name.ofString "playerName").override_name "nick", field_type := .scalar .id }
    (by decide) ((Name.ofString "RUST").override_name "Iron")
  exact ⟨by decide, h.1, h.2⟩

/-! ## Claim C7: enum string codec -/

/-- With pairwise-distinct original variant names, the generated `FromStr`
match returns the index of the matching variant. -/
theorem fromStrAux_nodup :
    ∀ (l : List Name) (i : Nat) (vI : Name), (l.map Name.orig).Nodup →
      l[i]? = some vI → Enum.fromStrAux l vI.orig = some i := by
  intro l
  induction l with
  | nil => intro i vI _ hi; simp at hi
  | cons v rest ih =>
    intro i vI hnd hi
    rw [List.map_cons] at hnd
    rcases List.nodup_cons.mp hnd with ⟨hvn, hrest⟩
    cases i with
    | zero =>
      simp only [List.getElem?_cons_zero, Option.some_inj] at hi
      subst hi
      simp [Enum.fromStrAux]
    | succ j =>
      simp only [List.getElem?_cons_succ] at hi
      have hmem : vI ∈ rest := by
        have := List.getElem?_eq_some_iff.mp hi
        obtain ⟨hj, hget⟩ := this
        exact hget ▸ List.getElem_mem hj
      have hne : ¬ v.orig = vI.orig := by
        intro he
        exact hvn (he ▸ List.mem_map_of_mem Name.orig hmem)
      simp [Enum.fromStrAux, hne, ih j vI hrest hi]

/-- When no variant's original name equals the input, the generated
`FromStr` match falls through to the error arm. -/
theorem fromStrAux_all_ne :
    ∀ (l : List Name) (s : String), l.all (fun v => v.orig != s) = true →
      Enum.fromStrAux l s = none := by
  intro l
  induction l with
  | nil => intro s _; rfl
  | cons v rest ih =>
    intro s h
    simp only [List.all_cons, Bool.and_eq_true, bne_iff_ne, ne_eq] at h
    simp [Enum.fromStrAux, h.1, ih s (by simpa using h.2)]

/-- Claim C7: decoding a string equal to a declared variant's original name
returns that variant (original names being pairwise distinct); decoding any
other string fails with an `InvalidStr` "invalid value" error whose message
embeds the offending string; encoding a variant always produces its
original name. -/
theorem c7_enum_codec (e : Enum) (i : Nat) (vI : Name) (s : String) :
    ((e.variants.map Name.orig).Nodup → e.variants[i]? = some vI →
      e.from_str vI.orig = .ok i)
  ∧ (e.variants.all (fun v => v.orig != s) = true →
      e.from_str s = .error ("InvalidStr", e.error_msg s))
  ∧ e.error_msg s = "`" ++ s ++ "` is an invalid value for enum " ++ e.name.to_type_ident.sym
  ∧ (e.variants[i]? = some vI → e.displayVariant i = some vI.orig) := by
  refine ⟨?_, ?_, rfl, ?_⟩
  · intro hnd hi
    simp [Enum.from_str, fromStrAux_nodup e.variants i vI hnd hi]
  · intro h
    simp [Enum.from_str, fromStrAux_all_ne e.variants s h]
  · intro hi
    simp [Enum.displayVariant, hi]

/-- Witness for C7 at the concrete enum `Team` with variants
`RUST`/`PYTHON`/`JS`, index 1 and the unknown string `SNAKE`. -/
theorem c7_enum_codec_witness :
    (List.map Name.orig [Name.ofString "RUST", Name.ofString "PYTHON",
      Name.ofString "JS"]).Nodup
  ∧ [Name.ofString "RUST", Name.ofString "PYTHON", Name.ofString "JS"][1]? =
      some (Name.ofString "PYTHON")
  ∧ Enum.from_str
      { name := Name.ofString "Team",
        variants := [Name.ofString "RUST", Name.ofString "PYTHON", Name.ofString "JS"] }
      (Name.ofString "PYTHON").orig = .ok 1
  ∧ [Name.ofString "RUST", Name.ofString "PYTHON", Name.ofString "JS"].all
      (fun v => v.orig != "SNAKE") = true
  ∧ Enum.from_str
      { name := Name.ofString "Team",
        variants := [Name.ofString "RUST", Name.ofString "PYTHON", Name.ofString "JS"] }
      "SNAKE" = .error ("InvalidStr",
        Enum.error_msg
          { name := Name.ofString "Team",
            variants := [Name.ofString "RUST", Name.ofString "PYTHON", Name.ofString "JS"] }
          "SNAKE")
  ∧ Enum.displayVariant
      { name := Name.ofString "Team",
        variants := [Name.ofString "RUST", Name.ofString "PYTHON", Name.ofString "JS"] }
      1 = some (Name.ofString "PYTHON").orig := by
  have h := c7_enum_codec
    { name := Name.ofString "Team",
      variants := [Name.ofString "RUST", Name.ofString "PYTHON", Name.ofString "JS"] }
    1 (Name.ofString "PYTHON") "SNAKE"
  exact ⟨by decide, by decide, h.1 (by decide) (by decide), by decide,
    h.2.1 (by decide), h.2.2.2 (by decide)⟩

/-! ## Claim C9: argument extraction -/

/-- The value taken out of the argument bag is the stored value, or `null`
when the key is absent. -/
theorem takeKey_fst (args : Json) (n : String) :
    (args.takeKey n).1 = (args.get n).getD .null := by
  cases args <;> simp [Json.takeKey, Json.get]
  case obj fields => cases lookupKey fields n <;> simp

/-- Taking one key leaves the others' lookups unchanged. -/
theorem lookupKey_setFirst_ne (fields : List (String × Json)) (n m : String)
    (hne : m ≠ n) (x : Json) : lookupKey (setFirst fields n x) m = lookupKey fields m := by
  induction fields with
  | nil => rfl
  | cons kv rest ih =>
    obtain ⟨k, v⟩ := kv
    by_cases hk : k = n
    · subst hk
      simp [setFirst, lookupKey, Ne.symm hne]
    · by_cases hm : k = m
      · subst hm
        simp [setFirst, lookupKey, hk]
      · simp [setFirst, lookupKey, hk, hm, ih]

/-- Taking one key leaves the others' values in the bag unchanged. -/
theorem takeKey_get_ne (args : Json) (n m : String) (hne : m ≠ n) :
    ((args.takeKey n).2).get m = args.get m := by
  cases args <;> simp [Json.takeKey, Json.get]
  case obj fields =>
    cases lookupKey fields n <;> simp [Json.get, lookupKey_setFirst_ne fields n m hne]

/-- `Except.map` preserves success. -/
theorem exceptMap_isOk {ε α β : Type} (f : α → β) (e : Except ε α) :
    (Except.map f e).isOk = e.isOk := by
  cases e <;> rfl

/-- `List.all` only depends on the predicate's values on the members. -/
theorem all_congr_mem {α : Type} (l : List α) (f g : α → Bool)
    (h : ∀ x ∈ l, f x = g x) : l.all f = l.all g := by
  induction l with
  | nil => rfl
  | cons a rest ih =>
    simp only [List.all_cons, h a (List.mem_cons_self a rest)]
    rw [ih (fun x hx => h x (List.mem_cons_of_mem a hx))]

/-- `firstFailingArg` only depends on the bag's values at the declared
argument names. -/
theorem firstFailingArg_congr (a1 a2 : Json) (decs : List ArgDecoder)
    (h : ∀ p ∈ decs, a1.get p.1 = a2.get p.1) :
    firstFailingArg a1 decs = firstFailingArg a2 decs := by
  induction decs with
  | nil => rfl
  | cons p rest ih =>
    simp only [firstFailingArg, h p (List.mem_cons_self p rest)]
    rw [ih (fun q hq => h q (List.mem_cons_of_mem p hq))]

/-- Distinct declared argument names never collide with the head's name. -/
theorem rest_keys_ne (n : String) (d : Json → Option Json) (rest : List ArgDecoder)
    (hn : n ∉ List.map Prod.fst rest) : ∀ q ∈ rest, q.1 ≠ n := by
  intro q hq he
  have hmem : q.1 ∈ List.map Prod.fst rest := List.mem_map_of_mem Prod.fst hq
  rw [he] at hmem
  exact hn hmem

/-- Step lemma: extraction fails on a failing head argument. -/
theorem extractArgsAux_cons_fail (args : Json) (n : String) (d : Json → Option Json)
    (rest : List ArgDecoder) (hd : d ((args.get n).getD .null) = none) :
    extractArgsAux args ((n, d) :: rest) = .error ("InvalidArgs", argErrorMsg n) := by
  simp only [extractArgsAux, arg_from_json, takeKey_fst, hd]

/-- Step lemma: extraction on a decodable head argument recurses on the
taken bag. -/
theorem extractArgsAux_cons_ok (args : Json) (n : String) (d : Json → Option Json)
    (rest : List ArgDecoder) (x : Json) (hd : d ((args.get n).getD .null) = some x) :
    extractArgsAux args ((n, d) :: rest) =
      (extractArgsAux (args.takeKey n).2 rest).map (fun vs => (x :: vs.1, vs.2)) := by
  simp only [extractArgsAux, arg_from_json, takeKey_fst, hd]
  cases extractArgsAux (args.takeKey n).2 rest <;> rfl

/-- Success of the generated extraction function is equivalent to every
declared argument's (absent-defaults-to-null) value decoding, provided the
declared argument names are distinct (GraphQL argument lists are). -/
theorem operation_arguments_isOk (args : Json) (decs : List ArgDecoder)
    (hnd : (decs.map Prod.fst).Nodup) :
    (operation_arguments args decs).isOk =
      decs.all (fun p => (p.2 ((args.get p.1).getD .null)).isSome) := by
  induction decs generalizing args with
  | nil => rfl
  | cons p rest ih =>
    obtain ⟨n, d⟩ := p
    rw [List.map_cons] at hnd
    rcases List.nodup_cons.mp hnd with ⟨hn, hrest⟩
    cases hd : d ((args.get n).getD .null) with
    | none =>
      rw [operation_arguments, extractArgsAux_cons_fail args n d rest hd]
      simp [hd, Except.map, Except.isOk, Except.toBool]
    | some x =>
      rw [operation_arguments, extractArgsAux_cons_ok args n d rest x hd]
      have hrec := ih (args.takeKey n).2 hrest
      have hcong : rest.all
          (fun q => (q.2 (((args.takeKey n).2.get q.1).getD .null)).isSome) =
          rest.all (fun q => (q.2 ((args.get q.1).getD .null)).isSome) :=
        all_congr_mem rest _ _ (fun q hq => by
          rw [takeKey_get_ne args n q.1 (rest_keys_ne n d rest hn q hq)])
      rw [exceptMap_isOk, exceptMap_isOk]
      rw [operation_arguments, exceptMap_isOk] at hrec
      rw [hrec, hcong]
      simp [hd]

/-- The generated extraction reports the first failing argument by name. -/
theorem operation_arguments_first_failing (args : Json) (decs : List ArgDecoder)
    (hnd : (decs.map Prod.fst).Nodup) (m : String)
    (hf : firstFailingArg args decs = some m) :
    operation_arguments args decs = .error ("InvalidArgs", argErrorMsg m) := by
  induction decs generalizing args with
  | nil => simp [firstFailingArg] at hf
  | cons p rest ih =>
    obtain ⟨n, d⟩ := p
    rw [List.map_cons] at hnd
    rcases List.nodup_cons.mp hnd with ⟨hn, hrest⟩
    simp only [firstFailingArg] at hf
    cases hd : d ((args.get n).getD .null) with
    | none =>
      rw [hd] at hf
      simp only [Option.isSome_none] at hf
      rw [if_neg (by simp)] at hf
      obtain rfl : n = m := by simpa using hf
      rw [operation_arguments, extractArgsAux_cons_fail args n d rest hd]
      rfl
    | some x =>
      rw [hd] at hf
      simp only [Option.isSome_some, if_true] at hf
      have hcong : firstFailingArg (args.takeKey n).2 rest = firstFailingArg args rest :=
        firstFailingArg_congr (args.takeKey n).2 args rest (fun q hq =>
          takeKey_get_ne args n q.1 (rest_keys_ne n d rest hn q hq))
      have hrec := ih (args.takeKey n).2 hrest (hcong.trans hf)
      rw [operation_arguments, extractArgsAux_cons_ok args n d rest x hd]
      rw [operation_arguments] at hrec
      cases haux : extractArgsAux (args.takeKey n).2 rest with
      | error e =>
        rw [haux] at hrec
        simpa [Except.map] using hrec
      | ok vs =>
        rw [haux] at hrec
        simp [Except.map] at hrec

/-- Claim C9: the generated argument extraction runs before the user
handler; it succeeds exactly when every declared argument's value — an
absent key being substituted by JSON `null` — decodes into its declared
type; on failure it reports an `InvalidArgs` error naming the (first)
offending argument and the handler is never consulted; an absent nullable
argument decodes to the absent value. -/
theorem c9_argument_extraction (args : Json) (decs : List ArgDecoder)
    (hnd : (decs.map Prod.fst).Nodup) (m n2 : String) (d : Json → Option Json)
    (h1 h2 : List Json → Except (String × String) Json) :
    (operation_arguments args decs).isOk =
      decs.all (fun p => (p.2 ((args.get p.1).getD .null)).isSome)
  ∧ (firstFailingArg args decs = some m →
      operation_arguments args decs = .error ("InvalidArgs", argErrorMsg m))
  ∧ argErrorMsg m = "Argument \"" ++ m ++ "\" is not the expected format"
  ∧ (decs.all (fun p => (p.2 ((args.get p.1).getD .null)).isSome) = false →
      dispatchOperation args decs h1 = dispatchOperation args decs h2)
  ∧ (args.get n2 = none → arg_from_json args n2 (decodeOption d) = (.ok .null, args)) := by
  refine ⟨operation_arguments_isOk args decs hnd,
    fun hf => operation_arguments_first_failing args decs hnd m hf, rfl, ?_, ?_⟩
  · intro hfail
    have hok := operation_arguments_isOk args decs hnd
    rw [hfail] at hok
    cases he : operation_arguments args decs with
    | error e => simp [dispatchOperation, he]
    | ok vs =>
      rw [he] at hok
      simp [Except.isOk, Except.toBool] at hok
  · intro hget
    cases args with
    | obj fields =>
      simp only [Json.get] at hget
      simp [arg_from_json, Json.takeKey, hget, decodeOption, Json.isNull]
    | _ => simp [arg_from_json, Json.takeKey, decodeOption, Json.isNull]

/-- Witness for C9 at a concrete argument bag with one decodable argument,
one failing argument and one absent nullable argument. -/
theorem c9_argument_extraction_witness :
    (List.map Prod.fst [("id", decodeStrOnly), ("count", decodeNumOnly)]).Nodup
  ∧ (operation_arguments (.obj [("id", .str "u1")])
      [("id", decodeStrOnly), ("count", decodeNumOnly)]).isOk =
      [("id", decodeStrOnly), ("count", decodeNumOnly)].all
        (fun p => (p.2 (((Json.obj [("id", .str "u1")]).get p.1).getD .null)).isSome)
  ∧ operation_arguments (.obj [("id", .str "u1")])
      [("id", decodeStrOnly), ("count", decodeNumOnly)] =
      .error ("InvalidArgs", argErrorMsg "count")
  ∧ arg_from_json (.obj [("id", .str "u1")]) "maybe" (decodeOption decodeBoolOnly) =
      (.ok .null, .obj [("id", .str "u1")]) := by
  have h := c9_argument_extraction (.obj [("id", .str "u1")])
    [("id", decodeStrOnly), ("count", decodeNumOnly)]
    (by decide) "count" "maybe" decodeBoolOnly
    (fun _ => .ok .null) (fun _ => .ok .null)
  exact ⟨by decide, h.1, h.2.1 rfl, h.2.2.2.2 rfl⟩

/-! ## Claim C6: a duplicate schema declaration is a fatal, single error -/

/-- When the document contains a schema declaration, `position` finds
one. -/
theorem positionSchemaDef_of_countP (l : List Definition)
    (h : 0 < l.countP isSchemaDef) : ∃ k, positionSchemaDef l = some k := by
  induction l with
  | nil => simp at h
  | cons d rest ih =>
    by_cases hd : isSchemaDef d
    · exact ⟨0, by simp [positionSchemaDef, hd]⟩
    · rw [List.countP_cons] at h
      simp only [hd, if_false, Nat.add_zero] at h
      obtain ⟨k, hk⟩ := ih h
      exact ⟨k + 1, by simp [positionSchemaDef, hd, hk]⟩

/-- Counting over a nonempty list splits into the front and the last
element. -/
theorem countP_dropLast_getLast {α : Type} (p : α → Bool) (l : List α) (hl : l ≠ []) :
    l.countP p = l.dropLast.countP p + (if p (l.getLast hl) then 1 else 0) := by
  conv_lhs => rw [← List.dropLast_append_getLast hl]
  rw [List.countP_append]
  simp [List.countP_cons]

/-- `swap_remove` drops exactly the element at the removed index from the
count. -/
theorem swapRemove_countP {α : Type} (p : α → Bool) :
    ∀ (l : List α) (k : Nat) (hk : k < l.length),
      (swapRemove l k).countP p + (if p (l.get ⟨k, hk⟩) then 1 else 0) = l.countP p := by
  intro l
  induction l with
  | nil => intro k hk; simp at hk
  | cons d rest ih =>
    intro k hk
    cases k with
    | zero =>
      cases rest with
      | nil => simp [swapRemove, List.countP_cons]
      | cons r rs =>
        have hne : (r :: rs : List α) ≠ [] := by simp
        have hlast : (d :: r :: rs).getLast? = some ((r :: rs).getLast hne) := by
          rw [List.getLast?_cons_cons, List.getLast?_eq_getLast]
        have hsplit := countP_dropLast_getLast p (r :: rs) hne
        have hget : (d :: r :: rs).get ⟨0, hk⟩ = d := rfl
        simp only [List.countP_cons] at hsplit ⊢
        simp only [swapRemove, hlast, List.set_cons_zero, List.dropLast_cons₂,
          List.countP_cons, hget]
        omega
    | succ j =>
      cases rest with
      | nil => simp at hk
      | cons r rs =>
        have hne : (r :: rs : List α) ≠ [] := by simp
        have hlast : (d :: r :: rs).getLast? = some ((r :: rs).getLast hne) := by
          rw [List.getLast?_cons_cons, List.getLast?_eq_getLast]
        have hlast2 : (r :: rs).getLast? = some ((r :: rs).getLast hne) :=
          List.getLast?_eq_getLast _ _
        have hj : j < (r :: rs).length := by simpa using hk
        have ihj := ih j hj
        simp only [swapRemove, hlast, hlast2, List.set_cons_succ] at ihj ⊢
        cases hset : (r :: rs).set j ((r :: rs).getLast hne) with
        | nil => exact absurd (congrArg List.length hset) (by simp)
        | cons s ss =>
          rw [hset] at ihj
          have hget : (d :: r :: rs).get ⟨j + 1, hk⟩ = (r :: rs).get ⟨j, hj⟩ := rfl
          simp only [List.countP_cons] at ihj ⊢
          simp only [List.dropLast_cons₂, List.countP_cons, hget]
          omega

/-- A found schema-declaration index is in bounds. -/
theorem positionSchemaDef_lt_length :
    ∀ (l : List Definition) (k : Nat), positionSchemaDef l = some k → k < l.length := by
  intro l
  induction l with
  | nil => intro k hk; simp [positionSchemaDef] at hk
  | cons d rest ih =>
    intro k hk
    by_cases hd : isSchemaDef d
    · simp [positionSchemaDef, hd] at hk
      subst hk
      simp
    · simp only [positionSchemaDef, hd, Bool.false_eq_true, if_false] at hk
      cases hpos : positionSchemaDef rest with
      | none => rw [hpos] at hk; simp at hk
      | some k0 =>
        rw [hpos] at hk
        have hlt := ih k0 hpos
        have : k0 + 1 = k := by simpa using hk
        simp only [List.length_cons]
        omega

/-- The definition loop aborts with the duplicate-schema error as soon as
a schema declaration remains in the processed list, whatever the state. -/
theorem buildLoop_two_schema (sd : SchemaDefinition) :
    ∀ (defs : List Definition) (st : BuildState), 0 < defs.countP isSchemaDef →
      buildLoop sd st defs = .error [msgTwoSchema] := by
  intro defs
  induction defs with
  | nil => intro st h; simp at h
  | cons d rest ih =>
    intro st h
    cases d with
    | schemaDef raw => rfl
    | objectType o =>
      exact ih (stepDef sd st (.objectType o))
        (by simpa [List.countP_cons, isSchemaDef] using h)
    | enumType e =>
      exact ih (stepDef sd st (.enumType e))
        (by simpa [List.countP_cons, isSchemaDef] using h)
    | inputObjectType i =>
      exact ih (stepDef sd st (.inputObjectType i))
        (by simpa [List.countP_cons, isSchemaDef] using h)
    | scalarType =>
      exact ih st (by simpa [List.countP_cons, isSchemaDef] using h)
    | interfaceType =>
      exact ih st (by simpa [List.countP_cons, isSchemaDef] using h)
    | unionType =>
      exact ih st (by simpa [List.countP_cons, isSchemaDef] using h)
    | typeExtension =>
      exact ih st (by simpa [List.countP_cons, isSchemaDef] using h)
    | directiveDefinition =>
      exact ih st (by simpa [List.countP_cons, isSchemaDef] using h)

/-- Claim C6: a document with two (or more) schema declarations fails with
exactly the single fatal duplicate-schema error, never combined with any
override-resolution error, whatever override directives are supplied. -/
theorem c6_duplicate_schema_fatal (doc : List Definition) (tos : TypeOverrides)
    (nos : NameOverrides) (h : 2 ≤ doc.countP isSchemaDef) :
    GraphQLSchema.new doc tos nos = .error [msgTwoSchema]
  ∧ GraphQLSchema.build doc tos nos = .error [msgTwoSchema] := by
  obtain ⟨k, hk⟩ := positionSchemaDef_of_countP doc (by omega)
  have hklen : k < doc.length := positionSchemaDef_lt_length doc k hk
  have hcount := swapRemove_countP isSchemaDef doc k hklen
  have hbody : 0 < (swapRemove doc k).countP isSchemaDef := by
    have hle : (if isSchemaDef (doc.get ⟨k, hklen⟩) then 1 else 0) ≤ 1 := by
      split <;> omega
    omega
  have hres : (resolveSchema doc).2 = swapRemove doc k := by
    unfold resolveSchema
    rw [hk]
  have hbuild : GraphQLSchema.build doc tos nos = .error [msgTwoSchema] := by
    unfold GraphQLSchema.build
    rw [hres, buildLoop_two_schema _ _ _ hbody]
    rfl
  refine ⟨?_, hbuild⟩
  unfold GraphQLSchema.new
  rw [hbuild]

/-- Witness for C6: a two-schema document with an (unreported) bogus
override still fails with only the duplicate-schema error. -/
theorem c6_duplicate_schema_fatal_witness :
    2 ≤ ([.schemaDef ⟨some "Q", none, none⟩, .scalarType,
          .schemaDef ⟨none, some "M", none⟩] : List Definition).countP isSchemaDef
  ∧ (GraphQLSchema.new
      [.schemaDef ⟨some "Q", none, none⟩, .scalarType, .schemaDef ⟨none, some "M", none⟩]
      [("Nope", [("f", (some ⟨"Nope", "f", none, "String"⟩, []))])] []
      = .error [msgTwoSchema]
  ∧ GraphQLSchema.build
      [.schemaDef ⟨some "Q", none, none⟩, .scalarType, .schemaDef ⟨none, some "M", none⟩]
      [("Nope", [("f", (some ⟨"Nope", "f", none, "String"⟩, []))])] []
      = .error [msgTwoSchema]) :=
  ⟨by decide, c6_duplicate_schema_fatal _ _ _ (by decide)⟩

/-! ## Claim C10: root classification -/

/-- Without a schema declaration, `position` finds nothing. -/
theorem positionSchemaDef_none_countP :
    ∀ (l : List Definition), positionSchemaDef l = none → l.countP isSchemaDef = 0 := by
  intro l
  induction l with
  | nil => intro _; rfl
  | cons d rest ih =>
    intro h
    by_cases hd : isSchemaDef d
    · simp [positionSchemaDef, hd] at h
    · simp only [positionSchemaDef, hd, Bool.false_eq_true, if_false] at h
      cases hpos : positionSchemaDef rest with
      | none => rw [List.countP_cons]; simp [hd, ih hpos]
      | some k0 => rw [hpos] at h; simp at h

/-- `position` finds a schema declaration. -/
theorem positionSchemaDef_isSchemaDef :
    ∀ (l : List Definition) (k : Nat) (h : positionSchemaDef l = some k)
      (hk : k < l.length), isSchemaDef (l.get ⟨k, hk⟩) = true := by
  intro l
  induction l with
  | nil => intro k h; simp [positionSchemaDef] at h
  | cons d rest ih =>
    intro k h hk
    by_cases hd : isSchemaDef d
    · simp [positionSchemaDef, hd] at h
      subst h
      exact hd
    · simp only [positionSchemaDef, hd, Bool.false_eq_true, if_false] at h
      cases hpos : positionSchemaDef rest with
      | none => rw [hpos] at h; simp at h
      | some k0 =>
        rw [hpos] at h
        have hkk : k0 + 1 = k := by simpa using h
        subst hkk
        exact ih k0 hpos (by simpa using hk)

/-- The last element, when present, is a member. -/
theorem getLast?_mem {α : Type} :
    ∀ (l : List α) (a : α), l.getLast? = some a → a ∈ l := by
  intro l
  induction l with
  | nil => intro a h; simp at h
  | cons d rest ih =>
    intro a h
    cases rest with
    | nil =>
      simp [List.getLast?] at h
      subst h
      exact List.mem_singleton_self _
    | cons r rs =>
      rw [List.getLast?_cons_cons] at h
      exact List.mem_cons_of_mem d (ih a h)

/-- Every element of a `swap_remove` result comes from the original
list. -/
theorem swapRemove_subset {α : Type} (l : List α) (i : Nat) :
    ∀ x ∈ swapRemove l i, x ∈ l := by
  intro x hx
  unfold swapRemove at hx
  cases hl : l.getLast? with
  | none => rw [hl] at hx; simp at hx
  | some last =>
    rw [hl] at hx
    have hx' : x ∈ l.set i last := (List.dropLast_sublist _).subset hx
    rcases List.mem_or_eq_of_mem_set hx' with h | h
    · exact h
    · exact h ▸ getLast?_mem l last hl

/-- Without schema declarations the loop is a plain fold of `stepDef`. -/
theorem buildLoop_no_schema (sd : SchemaDefinition) :
    ∀ (defs : List Definition) (st : BuildState), defs.countP isSchemaDef = 0 →
      buildLoop sd st defs = .ok (List.foldl (stepDef sd) st defs) := by
  intro defs
  induction defs with
  | nil => intro st _; rfl
  | cons d rest ih =>
    intro st h
    rw [List.countP_cons] at h
    cases d with
    | schemaDef raw => simp [isSchemaDef] at h
    | objectType o => exact ih _ (by simpa [isSchemaDef] using h)
    | enumType e => exact ih _ (by simpa [isSchemaDef] using h)
    | inputObjectType i => exact ih _ (by simpa [isSchemaDef] using h)
    | scalarType => exact ih _ (by simpa [isSchemaDef] using h)
    | interfaceType => exact ih _ (by simpa [isSchemaDef] using h)
    | unionType => exact ih _ (by simpa [isSchemaDef] using h)
    | typeExtension => exact ih _ (by simpa [isSchemaDef] using h)
    | directiveDefinition => exact ih _ (by simpa [isSchemaDef] using h)

/-- With empty override maps and no root-named object, one step leaves the
root lists, the errors and the override maps untouched. -/
theorem stepDef_no_roots (sd : SchemaDefinition) (st : BuildState) (d : Definition)
    (hroot : ∀ o, d = Definition.objectType o → sd.schema_definition o.name = none)
    (ht : st.tos = []) (hn : st.nos = []) :
    (stepDef sd st d).queries = st.queries
  ∧ (stepDef sd st d).mutations = st.mutations
  ∧ (stepDef sd st d).subscriptions = st.subscriptions
  ∧ (stepDef sd st d).errors = st.errors
  ∧ (stepDef sd st d).tos = []
  ∧ (stepDef sd st d).nos = [] := by
  cases d with
  | objectType o =>
    have ho := hroot o rfl
    simp [stepDef, stepObject, ho, ht, hn, removeKey]
  | enumType e => simp [stepDef, stepEnum, ht, hn, removeKey]
  | inputObjectType i => simp [stepDef, stepInput, ht, hn, removeKey]
  | schemaDef raw => exact ⟨rfl, rfl, rfl, rfl, ht, hn⟩
  | scalarType => exact ⟨rfl, rfl, rfl, rfl, ht, hn⟩
  | interfaceType => exact ⟨rfl, rfl, rfl, rfl, ht, hn⟩
  | unionType => exact ⟨rfl, rfl, rfl, rfl, ht, hn⟩
  | typeExtension => exact ⟨rfl, rfl, rfl, rfl, ht, hn⟩
  | directiveDefinition => exact ⟨rfl, rfl, rfl, rfl, ht, hn⟩

/-- With empty override maps and no root-named objects, the whole fold
leaves the root lists, the errors and the override maps untouched. -/
theorem foldl_no_roots (sd : SchemaDefinition) :
    ∀ (defs : List Definition) (st : BuildState),
      (∀ o, Definition.objectType o ∈ defs → sd.schema_definition o.name = none) →
      st.tos = [] → st.nos = [] →
      (List.foldl (stepDef sd) st defs).queries = st.queries
    ∧ (List.foldl (stepDef sd) st defs).mutations = st.mutations
    ∧ (List.foldl (stepDef sd) st defs).subscriptions = st.subscriptions
    ∧ (List.foldl (stepDef sd) st defs).errors = st.errors
    ∧ (List.foldl (stepDef sd) st defs).tos = []
    ∧ (List.foldl (stepDef sd) st defs).nos = [] := by
  intro defs
  induction defs with
  | nil => intro st _ ht hn; exact ⟨rfl, rfl, rfl, rfl, ht, hn⟩
  | cons d rest ih =>
    intro st h ht hn
    have hstep := stepDef_no_roots sd st d
      (fun o ho => h o (ho ▸ List.mem_cons_self d rest)) ht hn
    obtain ⟨s1, s2, s3, s4, s5, s6⟩ := hstep
    have hrest := ih (stepDef sd st d)
      (fun o ho => h o (List.mem_cons_of_mem d ho)) s5 s6
    obtain ⟨r1, r2, r3, r4, r5, r6⟩ := hrest
    rw [List.foldl_cons]
    exact ⟨r1.trans s1, r2.trans s2, r3.trans s3, r4.trans s4, r5, r6⟩

/-- Claim C10: a document in which no declared object type's name matches a
resolved root name still builds successfully, with all three operations
lists empty (the structures and enums being those of the document); and a
type name matching several root roles is classified by the first match in
the fixed order query, mutation, subscription. -/
theorem c10_root_classification (doc : List Definition)
    (hone : doc.countP isSchemaDef ≤ 1)
    (hnoroot : doc.all (fun d => match d with
      | .objectType o => ((resolveSchema doc).1.schema_definition o.name).isNone
      | _ => true) = true)
    (sd : SchemaDefinition) (nm : String) :
    GraphQLSchema.new doc [] [] = .ok
      { queries := [], mutations := [], subscriptions := [],
        structures := buildStructures doc [] [], enums := buildEnums doc [] [] }
  ∧ (nm = sd.query → sd.schema_definition nm = some .query)
  ∧ (nm ≠ sd.query → nm = sd.mutation → sd.schema_definition nm = some .mutation)
  ∧ (nm ≠ sd.query → nm ≠ sd.mutation → nm = sd.subscription →
      sd.schema_definition nm = some .subscription)
  ∧ (nm ≠ sd.query → nm ≠ sd.mutation → nm ≠ sd.subscription →
      sd.schema_definition nm = none) := by
  have hbody0 : (resolveSchema doc).2.countP isSchemaDef = 0 := by
    cases hpos : positionSchemaDef doc with
    | none =>
      have hc := positionSchemaDef_none_countP doc hpos
      unfold resolveSchema
      rw [hpos]
      exact hc
    | some k =>
      have hklen := positionSchemaDef_lt_length doc k hpos
      have hcount := swapRemove_countP isSchemaDef doc k hklen
      have hsk := positionSchemaDef_isSchemaDef doc k hpos hklen
      have hres : (resolveSchema doc).2 = swapRemove doc k := by
        unfold resolveSchema
        rw [hpos]
      rw [hres]
      rw [hsk] at hcount
      simp only [if_true] at hcount
      omega
  have hloop := buildLoop_no_schema (resolveSchema doc).1 (resolveSchema doc).2
    (BuildState.init [] []) hbody0
  have hmemroots : ∀ o, Definition.objectType o ∈ (resolveSchema doc).2 →
      (resolveSchema doc).1.schema_definition o.name = none := by
    intro o ho
    have hdoc : Definition.objectType o ∈ doc := by
      cases hpos : positionSchemaDef doc with
      | none =>
        unfold resolveSchema at ho
        rw [hpos] at ho
        exact ho
      | some k =>
        have hres : (resolveSchema doc).2 = swapRemove doc k := by
          unfold resolveSchema
          rw [hpos]
        rw [hres] at ho
        exact swapRemove_subset doc k _ ho
    have hall := List.all_eq_true.mp hnoroot _ hdoc
    simpa using hall
  have hfold := foldl_no_roots (resolveSchema doc).1 (resolveSchema doc).2
    (BuildState.init [] []) hmemroots rfl rfl
  obtain ⟨hq, hm, hs, he, htos, hnos⟩ := hfold
  have hbuild : GraphQLSchema.build doc [] [] = .ok
      { List.foldl (stepDef (resolveSchema doc).1) (BuildState.init [] [])
          (resolveSchema doc).2 with
        errors :=
          (List.foldl (stepDef (resolveSchema doc).1) (BuildState.init [] [])
            (resolveSchema doc).2).errors ++
          leftoverTosErrors (List.foldl (stepDef (resolveSchema doc).1)
            (BuildState.init [] []) (resolveSchema doc).2).tos ++
          leftoverNosErrors (List.foldl (stepDef (resolveSchema doc).1)
            (BuildState.init [] []) (resolveSchema doc).2).nos } := by
    unfold GraphQLSchema.build
    rw [hloop]
    rfl
  have herr : (List.foldl (stepDef (resolveSchema doc).1) (BuildState.init [] [])
        (resolveSchema doc).2).errors ++
      leftoverTosErrors (List.foldl (stepDef (resolveSchema doc).1)
        (BuildState.init [] []) (resolveSchema doc).2).tos ++
      leftoverNosErrors (List.foldl (stepDef (resolveSchema doc).1)
        (BuildState.init [] []) (resolveSchema doc).2).nos = [] := by
    rw [he, htos, hnos]
    rfl
  refine ⟨?_, ?_, ?_, ?_, ?_⟩
  · have hbs : buildStructures doc [] [] =
        (List.foldl (stepDef (resolveSchema doc).1) (BuildState.init [] [])
          (resolveSchema doc).2).structures := by
      unfold buildStructures
      rw [hbuild]
    have hbe : buildEnums doc [] [] =
        (List.foldl (stepDef (resolveSchema doc).1) (BuildState.init [] [])
          (resolveSchema doc).2).enums := by
      unfold buildEnums
      rw [hbuild]
    unfold GraphQLSchema.new
    rw [hbuild]
    simp only [herr, List.isEmpty_nil, if_true]
    rw [hbs, hbe]
    simp only [hq, hm, hs]
    simp [BuildState.init]
  · intro h1
    unfold SchemaDefinition.schema_definition
    rw [if_pos h1]
  · intro h1 h2
    unfold SchemaDefinition.schema_definition
    rw [if_neg h1, if_pos h2]
  · intro h1 h2 h3
    unfold SchemaDefinition.schema_definition
    rw [if_neg h1, if_neg h2, if_pos h3]
  · intro h1 h2 h3
    unfold SchemaDefinition.schema_definition
    rw [if_neg h1, if_neg h2, if_neg h3]

/-- Witness for C10 at a concrete document whose only object type `Player`
matches no root name, and a schema definition mapping all three roles to
the same type name. -/
theorem c10_root_classification_witness :
    ([.schemaDef ⟨some "Q", none, none⟩,
      .objectType ⟨"Player", [⟨"id", [], .nonNull (.named "ID")⟩]⟩] :
        List Definition).countP isSchemaDef ≤ 1
  ∧ ([.schemaDef ⟨some "Q", none, none⟩,
      .objectType ⟨"Player", [⟨"id", [], .nonNull (.named "ID")⟩]⟩] :
        List Definition).all (fun d => match d with
      | .objectType o => ((resolveSchema
          [.schemaDef ⟨some "Q", none, none⟩,
           .objectType ⟨"Player", [⟨"id", [], .nonNull (.named "ID")⟩]⟩]).1.schema_definition
            o.name).isNone
      | _ => true) = true
  ∧ (GraphQLSchema.new
      [.schemaDef ⟨some "Q", none, none⟩,
       .objectType ⟨"Player", [⟨"id", [], .nonNull (.named "ID")⟩]⟩] [] [] = .ok
      { queries := [], mutations := [], subscriptions := [],
        structures := buildStructures
          [.schemaDef ⟨some "Q", none, none⟩,
           .objectType ⟨"Player", [⟨"id", [], .nonNull (.named "ID")⟩]⟩] [] [],
        enums := buildEnums
          [.schemaDef ⟨some "Q", none, none⟩,
           .objectType ⟨"Player", [⟨"id", [], .nonNull (.named "ID")⟩]⟩] [] [] }
  ∧ ("Both" = (⟨"Both", "Both", "Sub"⟩ : SchemaDefinition).query →
      (⟨"Both", "Both", "Sub"⟩ : SchemaDefinition).schema_definition "Both" =
        some .query)) := by
  have h := c10_root_classification
    [.schemaDef ⟨some "Q", none, none⟩,
     .objectType ⟨"Player", [⟨"id", [], .nonNull (.named "ID")⟩]⟩]
    (by decide) (by decide) ⟨"Both", "Both", "Sub"⟩ "Both"
  exact ⟨by decide, by decide, h.1, h.2.1⟩

/-! ## Claim C5: override error accumulation -/

/-- `Name.ofString` keeps the original string. -/
theorem orig_ofString (s : String) : (Name.ofString s).orig = s := by
  unfold Name.ofString
  split <;> rfl

/-- Removing an absent key is a no-op. -/
theorem removeKey_not_mem {α : Type} :
    ∀ (m : List (String × α)) (k : String), k ∉ m.map Prod.fst →
      removeKey m k = (none, m) := by
  intro m
  induction m with
  | nil => intro k _; rfl
  | cons kv rest ih =>
    intro k hk
    rw [List.map_cons] at hk
    have h1 : kv.1 ≠ k := fun he => hk (he ▸ List.mem_cons_self _ _)
    have h2 : k ∉ rest.map Prod.fst := fun hm => hk (List.mem_cons_of_mem _ hm)
    simp [removeKey, h1, ih k h2]

/-- With pairwise-distinct keys, removing a present key returns its
value. -/
theorem removeKey_mem_nodup {α : Type} :
    ∀ (m : List (String × α)) (k : String) (v : α), (m.map Prod.fst).Nodup →
      (k, v) ∈ m → (removeKey m k).1 = some v := by
  intro m
  induction m with
  | nil => intro k v _ hm; simp at hm
  | cons kv rest ih =>
    intro k v hnd hm
    rw [List.map_cons] at hnd
    rcases List.nodup_cons.mp hnd with ⟨hk, hrest⟩
    rcases List.mem_cons.mp hm with he | hm2
    · rw [← he]
      simp [removeKey]
    · have hne : kv.1 ≠ k := by
        intro he2
        have : k ∈ rest.map Prod.fst := List.mem_map_of_mem Prod.fst hm2
        rw [← he2] at this
        exact hk this
      simp [removeKey, hne, ih k v hrest hm2]

/-- Removing one key keeps every entry with a different key. -/
theorem removeKey_mem_other {α : Type} :
    ∀ (m : List (String × α)) (k : String) (kv : String × α), kv ∈ m →
      kv.1 ≠ k → kv ∈ (removeKey m k).2 := by
  intro m
  induction m with
  | nil => intro k kv hm; simp at hm
  | cons hd rest ih =>
    intro k kv hm hne
    rcases List.mem_cons.mp hm with he | hm2
    · subst he
      simp [removeKey, hne]
    · by_cases hh : hd.1 = k
      · simp [removeKey, hh, hm2]
      · simp only [removeKey, hh, if_false]
        exact List.mem_cons_of_mem hd (ih k kv hm2 hne)

/-- The keys after a removal are a sublist of the original keys. -/
theorem removeKey_keys_sublist {α : Type} :
    ∀ (m : List (String × α)) (k : String),
      ((removeKey m k).2.map Prod.fst).Sublist (m.map Prod.fst) := by
  intro m
  induction m with
  | nil => intro k; simp [removeKey]
  | cons hd rest ih =>
    intro k
    by_cases hh : hd.1 = k
    · simp only [removeKey, hh, if_true, List.map_cons]
      exact (List.sublist_cons_self _ _)
    · simp only [removeKey, hh, if_false, List.map_cons]
      exact List.Sublist.cons₂ _ (ih k)

/-- Removal preserves distinctness of the keys. -/
theorem removeKey_keys_nodup {α : Type} (m : List (String × α)) (k : String)
    (hnd : (m.map Prod.fst).Nodup) : ((removeKey m k).2.map Prod.fst).Nodup :=
  (removeKey_keys_sublist m k).nodup hnd

/-- Removal preserves absence of a key. -/
theorem removeKey_keys_not_mem {α : Type} (m : List (String × α)) (k k2 : String)
    (h : k2 ∉ m.map Prod.fst) : k2 ∉ (removeKey m k).2.map Prod.fst :=
  fun hm => h ((removeKey_keys_sublist m k).subset hm)

/-- Positional characterization of the field loop of
`Structure::apply_type_overrides`: with distinct override keys and distinct
field names, the field whose name is overridden comes out with the direct
override applied (and nothing else changed on it). -/
theorem structFieldsLoop_getElem :
    ∀ (fields : List Field) (tos : FieldOverrides) (k : Nat) (f0 : Field)
      (fname : String) (fo : Option TypeOverride) (argos : ArgTypeOverrides),
      (tos.map Prod.fst).Nodup →
      (fields.map (fun f => f.name.orig)).Nodup →
      (fname, (fo, argos)) ∈ tos →
      fields[k]? = some f0 → f0.name.orig = fname →
      (structFieldsLoop fields tos).1[k]? =
        some { f0 with field_type := applyDirectOverride fo f0.field_type } := by
  intro fields
  induction fields with
  | nil => intro tos k f0 fname fo argos _ _ _ hk _; simp at hk
  | cons f rest ih =>
    intro tos k f0 fname fo argos hknd hfnd hmem hk horig
    rw [List.map_cons] at hfnd
    rcases List.nodup_cons.mp hfnd with ⟨hfn, hfrest⟩
    cases k with
    | zero =>
      simp only [List.getElem?_cons_zero, Option.some_inj] at hk
      subst hk
      have hr1 : (removeKey tos f.name.orig).1 = some (fo, argos) := by
        rw [horig]
        exact removeKey_mem_nodup tos fname (fo, argos) hknd hmem
      simp only [structFieldsLoop, hr1]
      cases fo <;> simp [applyDirectOverride]
    | succ j =>
      simp only [List.getElem?_cons_succ] at hk
      have hf0mem : f0 ∈ rest := by
        obtain ⟨hj, hget⟩ := List.getElem?_eq_some_iff.mp hk
        exact hget ▸ List.getElem_mem hj
      have hne : f.name.orig ≠ fname := by
        intro he
        refine hfn ?_
        rw [he, ← horig]
        exact List.mem_map_of_mem (fun g => g.name.orig) hf0mem
      have hmem2 : (fname, (fo, argos)) ∈ (removeKey tos f.name.orig).2 :=
        removeKey_mem_other tos f.name.orig _ hmem (fun he => hne he.symm)
      have hknd2 := removeKey_keys_nodup tos f.name.orig hknd
      have ihres := ih (removeKey tos f.name.orig).2 j f0 fname fo argos
        hknd2 hfrest hmem2 hk horig
      cases hr : (removeKey tos f.name.orig).1 with
      | none =>
        simp only [structFieldsLoop, hr, List.getElem?_cons_succ]
        exact ihres
      | some fov =>
        simp only [structFieldsLoop, hr, List.getElem?_cons_succ]
        exact ihres

/-- Misuse reporting: an argument-level override matching a structure field
contributes a "Using args overrides is only supported on operations"
error. -/
theorem structFieldsLoop_misuse :
    ∀ (fields : List Field) (tos : FieldOverrides) (k : Nat) (f0 : Field)
      (fname : String) (fo : Option TypeOverride) (argos : ArgTypeOverrides),
      (tos.map Prod.fst).Nodup →
      (fields.map (fun f => f.name.orig)).Nodup →
      (fname, (fo, argos)) ∈ tos →
      fields[k]? = some f0 → f0.name.orig = fname → argos ≠ [] →
      msgArgsOnOps ∈ (structFieldsLoop fields tos).2.2 := by
  intro fields
  induction fields with
  | nil => intro tos k f0 fname fo argos _ _ _ hk _ _; simp at hk
  | cons f rest ih =>
    intro tos k f0 fname fo argos hknd hfnd hmem hk horig hargos
    rw [List.map_cons] at hfnd
    rcases List.nodup_cons.mp hfnd with ⟨hfn, hfrest⟩
    cases k with
    | zero =>
      simp only [List.getElem?_cons_zero, Option.some_inj] at hk
      subst hk
      have hr1 : (removeKey tos f.name.orig).1 = some (fo, argos) := by
        rw [horig]
        exact removeKey_mem_nodup tos fname (fo, argos) hknd hmem
      simp only [structFieldsLoop, hr1]
      cases argos with
      | nil => exact absurd rfl hargos
      | cons a as => simp
    | succ j =>
      simp only [List.getElem?_cons_succ] at hk
      have hf0mem : f0 ∈ rest := by
        obtain ⟨hj, hget⟩ := List.getElem?_eq_some_iff.mp hk
        exact hget ▸ List.getElem_mem hj
      have hne : f.name.orig ≠ fname := by
        intro he
        refine hfn ?_
        rw [he, ← horig]
        exact List.mem_map_of_mem (fun g => g.name.orig) hf0mem
      have hmem2 : (fname, (fo, argos)) ∈ (removeKey tos f.name.orig).2 :=
        removeKey_mem_other tos f.name.orig _ hmem (fun he => hne he.symm)
      have hknd2 := removeKey_keys_nodup tos f.name.orig hknd
      have ihres := ih (removeKey tos f.name.orig).2 j f0 fname fo argos
        hknd2 hfrest hmem2 hk horig hargos
      cases hr : (removeKey tos f.name.orig).1 with
      | none =>
        simp only [structFieldsLoop, hr]
        exact ihres
      | some fov =>
        simp only [structFieldsLoop, hr]
        exact List.mem_append_right _ ihres

/-- A directive targeting no field of the structure survives the field
loop into the leftover map. -/
theorem structFieldsLoop_leftover :
    ∀ (fields : List Field) (tos : FieldOverrides) (fname : String) (fov : FieldOverride),
      (fname, fov) ∈ tos → (∀ f ∈ fields, f.name.orig ≠ fname) →
      (fname, fov) ∈ (structFieldsLoop fields tos).2.1 := by
  intro fields
  induction fields with
  | nil => intro tos fname fov hmem _; exact hmem
  | cons f rest ih =>
    intro tos fname fov hmem hno
    have hne : fname ≠ f.name.orig :=
      fun he => hno f (List.mem_cons_self f rest) he.symm
    have hmem2 : (fname, fov) ∈ (removeKey tos f.name.orig).2 :=
      removeKey_mem_other tos f.name.orig _ hmem hne
    have ihres := ih (removeKey tos f.name.orig).2 fname fov hmem2
      (fun g hg => hno g (List.mem_cons_of_mem f hg))
    cases hr : (removeKey tos f.name.orig).1 with
    | none =>
      simp only [structFieldsLoop, hr]
      exact ihres
    | some fov2 =>
      simp only [structFieldsLoop, hr]
      exact ihres

/-- A leftover directive's `TypeOverride` payloads. -/
theorem mem_leftoverDirectives_direct (fo : Option TypeOverride)
    (argos : ArgTypeOverrides) (tov : TypeOverride) (h : fo = some tov) :
    tov ∈ leftoverDirectives (fo, argos) := by
  subst h
  exact List.mem_append_left _ (List.mem_singleton_self tov)

/-- A leftover argument directive's `TypeOverride` payload. -/
theorem mem_leftoverDirectives_arg (fo : Option TypeOverride)
    (argos : ArgTypeOverrides) (aname : String) (ato : TypeOverride)
    (h : (aname, ato) ∈ argos) : ato ∈ leftoverDirectives (fo, argos) :=
  List.mem_append_right _ (List.mem_map_of_mem Prod.snd h)

/-- Positional characterization of the argument loop of
`Operation::apply_type_overrides`. -/
theorem opArgsLoop_getElem :
    ∀ (args : List Field) (argos : ArgTypeOverrides) (j : Nat) (a0 : Field)
      (aname : String) (ato : TypeOverride),
      (argos.map Prod.fst).Nodup →
      (args.map (fun a => a.name.orig)).Nodup →
      (aname, ato) ∈ argos → args[j]? = some a0 → a0.name.orig = aname →
      (opArgsLoop args argos).1[j]? =
        some { a0 with field_type := a0.field_type.override_type ato.type_ident } := by
  intro args
  induction args with
  | nil => intro argos j a0 aname ato _ _ _ hj _; simp at hj
  | cons a rest ih =>
    intro argos j a0 aname ato hknd hand hmem hj horig
    rw [List.map_cons] at hand
    rcases List.nodup_cons.mp hand with ⟨han, hanrest⟩
    cases j with
    | zero =>
      simp only [List.getElem?_cons_zero, Option.some_inj] at hj
      subst hj
      have hr1 : (removeKey argos a.name.orig).1 = some ato := by
        rw [horig]
        exact removeKey_mem_nodup argos aname ato hknd hmem
      simp only [opArgsLoop, hr1]
      simp
    | succ i =>
      simp only [List.getElem?_cons_succ] at hj
      have ha0mem : a0 ∈ rest := by
        obtain ⟨hi, hget⟩ := List.getElem?_eq_some_iff.mp hj
        exact hget ▸ List.getElem_mem hi
      have hne : a.name.orig ≠ aname := by
        intro he
        refine han ?_
        rw [he, ← horig]
        exact List.mem_map_of_mem (fun g => g.name.orig) ha0mem
      have hmem2 : (aname, ato) ∈ (removeKey argos a.name.orig).2 :=
        removeKey_mem_other argos a.name.orig _ hmem (fun he => hne he.symm)
      have hknd2 := removeKey_keys_nodup argos a.name.orig hknd
      have ihres := ih (removeKey argos a.name.orig).2 i a0 aname ato
        hknd2 hanrest hmem2 hj horig
      cases hr : (removeKey argos a.name.orig).1 with
      | none =>
        simp only [opArgsLoop, hr, List.getElem?_cons_succ]
        exact ihres
      | some ato2 =>
        simp only [opArgsLoop, hr, List.getElem?_cons_succ]
        exact ihres

/-- A directive targeting no declared argument survives the argument loop
into the leftover map. -/
theorem opArgsLoop_leftover :
    ∀ (args : List Field) (argos : ArgTypeOverrides) (aname : String) (ato : TypeOverride),
      (aname, ato) ∈ argos → (∀ a ∈ args, a.name.orig ≠ aname) →
      (aname, ato) ∈ (opArgsLoop args argos).2 := by
  intro args
  induction args with
  | nil => intro argos aname ato hmem _; exact hmem
  | cons a rest ih =>
    intro argos aname ato hmem hno
    have hne : aname ≠ a.name.orig :=
      fun he => hno a (List.mem_cons_self a rest) he.symm
    have hmem2 : (aname, ato) ∈ (removeKey argos a.name.orig).2 :=
      removeKey_mem_other argos a.name.orig _ hmem hne
    have ihres := ih (removeKey argos a.name.orig).2 aname ato hmem2
      (fun g hg => hno g (List.mem_cons_of_mem a hg))
    cases hr : (removeKey argos a.name.orig).1 with
    | none =>
      simp only [opArgsLoop, hr]
      exact ihres
    | some ato2 =>
      simp only [opArgsLoop, hr]
      exact ihres

/-- The return type after `Operation::apply_type_overrides`. -/
theorem op_apply_return_type (op : Operation) (fo : Option TypeOverride)
    (argos : ArgTypeOverrides) :
    (op.apply_type_overrides (fo, argos)).1.return_type =
      applyDirectOverride fo op.return_type := by
  cases fo <;> rfl

/-- The arguments after `Operation::apply_type_overrides` are the argument
loop's output. -/
theorem op_apply_args (op : Operation) (fo : Option TypeOverride)
    (argos : ArgTypeOverrides) :
    (op.apply_type_overrides (fo, argos)).1.args = (opArgsLoop op.args argos).1 := by
  cases fo <;> rfl

/-- The errors of `Operation::apply_type_overrides` are one
"No argument ..." message per leftover argument directive. -/
theorem op_apply_errs (op : Operation) (fo : Option TypeOverride)
    (argos : ArgTypeOverrides) :
    (op.apply_type_overrides (fo, argos)).2 =
      (opArgsLoop op.args argos).2.map
        (fun kv => msgNoArgument (kv.2.arg_name.getD "") kv.2.type_name kv.2.field_name) := by
  cases fo <;> rfl

/-- Positional characterization of the operation loop of
`Operations::apply_type_overrides`: the matched operation comes out with
its overrides applied and its errors are part of the loop's errors. -/
theorem opsLoop_getElem :
    ∀ (ops : List Operation) (oos : FieldOverrides) (k : Nat) (op0 : Operation)
      (opname : String) (fov : FieldOverride),
      (oos.map Prod.fst).Nodup →
      (ops.map (fun op => op.name.orig)).Nodup →
      (opname, fov) ∈ oos → ops[k]? = some op0 → op0.name.orig = opname →
      (opsLoop ops oos).1[k]? = some (op0.apply_type_overrides fov).1
      ∧ ∀ e ∈ (op0.apply_type_overrides fov).2, e ∈ (opsLoop ops oos).2.2 := by
  intro ops
  induction ops with
  | nil => intro oos k op0 opname fov _ _ _ hk _; simp at hk
  | cons op rest ih =>
    intro oos k op0 opname fov hknd hond hmem hk horig
    rw [List.map_cons] at hond
    rcases List.nodup_cons.mp hond with ⟨hon, honrest⟩
    cases k with
    | zero =>
      simp only [List.getElem?_cons_zero, Option.some_inj] at hk
      subst hk
      have hr1 : (removeKey oos op.name.orig).1 = some fov := by
        rw [horig]
        exact removeKey_mem_nodup oos opname fov hknd hmem
      simp only [opsLoop, hr1]
      exact ⟨by simp, fun e he => List.mem_append_left _ he⟩
    | succ i =>
      simp only [List.getElem?_cons_succ] at hk
      have hop0mem : op0 ∈ rest := by
        obtain ⟨hi, hget⟩ := List.getElem?_eq_some_iff.mp hk
        exact hget ▸ List.getElem_mem hi
      have hne : op.name.orig ≠ opname := by
        intro he
        refine hon ?_
        rw [he, ← horig]
        exact List.mem_map_of_mem (fun g => g.name.orig) hop0mem
      have hmem2 : (opname, fov) ∈ (removeKey oos op.name.orig).2 :=
        removeKey_mem_other oos op.name.orig _ hmem (fun he => hne he.symm)
      have hknd2 := removeKey_keys_nodup oos op.name.orig hknd
      have ihres := ih (removeKey oos op.name.orig).2 i op0 opname fov
        hknd2 honrest hmem2 hk horig
      cases hr : (removeKey oos op.name.orig).1 with
      | none =>
        simp only [opsLoop, hr, List.getElem?_cons_succ]
        exact ihres
      | some fov2 =>
        simp only [opsLoop, hr, List.getElem?_cons_succ]
        exact ⟨ihres.1, fun e he => List.mem_append_right _ (ihres.2 e he)⟩

/-- A directive targeting no operation of the root survives the operation
loop into the leftover map. -/
theorem opsLoop_leftover :
    ∀ (ops : List Operation) (oos : FieldOverrides) (opname : String) (fov : FieldOverride),
      (opname, fov) ∈ oos → (∀ op ∈ ops, op.name.orig ≠ opname) →
      (opname, fov) ∈ (opsLoop ops oos).2.1 := by
  intro ops
  induction ops with
  | nil => intro oos opname fov hmem _; exact hmem
  | cons op rest ih =>
    intro oos opname fov hmem hno
    have hne : opname ≠ op.name.orig :=
      fun he => hno op (List.mem_cons_self op rest) he.symm
    have hmem2 : (opname, fov) ∈ (removeKey oos op.name.orig).2 :=
      removeKey_mem_other oos op.name.orig _ hmem hne
    have ihres := ih (removeKey oos op.name.orig).2 opname fov hmem2
      (fun g hg => hno g (List.mem_cons_of_mem op hg))
    cases hr : (removeKey oos op.name.orig).1 with
    | none =>
      simp only [opsLoop, hr]
      exact ihres
    | some fov2 =>
      simp only [opsLoop, hr]
      exact ihres

/-- The type-override map after one step is either untouched or has the
declaration's own key removed. -/
theorem stepDef_tos_shape (sd : SchemaDefinition) (st : BuildState) (d : Definition) :
    (stepDef sd st d).tos = st.tos ∨
      ∃ key, tosKeyOf d = some key ∧ (stepDef sd st d).tos = (removeKey st.tos key).2 := by
  cases d with
  | objectType o =>
    right
    refine ⟨o.name, rfl, ?_⟩
    cases hroot : sd.schema_definition o.name with
    | none =>
      have horig : (Structure.ofObjectType o).name.orig = o.name := orig_ofString o.name
      simp [stepDef, stepObject, hroot, horig]
    | some kind => cases kind <;> simp [stepDef, stepObject, hroot]
  | inputObjectType i =>
    right
    refine ⟨i.name, rfl, ?_⟩
    have horig : (Structure.ofInputObjectType i).name.orig = i.name := orig_ofString i.name
    simp [stepDef, stepInput, horig]
  | enumType e => left; simp [stepDef, stepEnum]
  | schemaDef raw => left; rfl
  | scalarType => left; rfl
  | interfaceType => left; rfl
  | unionType => left; rfl
  | typeExtension => left; rfl
  | directiveDefinition => left; rfl

/-- Applying type overrides never renames the structure. -/
theorem apply_type_overrides_name (s : Structure) (fos : FieldOverrides) :
    (s.apply_type_overrides fos).1.name = s.name := rfl

/-- The name-override map after one step is either untouched or has one
key removed. -/
theorem stepDef_nos_shape (sd : SchemaDefinition) (st : BuildState) (d : Definition) :
    (stepDef sd st d).nos = st.nos ∨
      ∃ key, (stepDef sd st d).nos = (removeKey st.nos key).2 := by
  cases d with
  | objectType o =>
    cases hroot : sd.schema_definition o.name with
    | none =>
      right
      refine ⟨(Structure.ofObjectType o).name.orig, ?_⟩
      cases hr : (removeKey st.tos (Structure.ofObjectType o).name.orig).1 with
      | none => simp [stepDef, stepObject, hroot, hr]
      | some fos => simp [stepDef, stepObject, hroot, hr, apply_type_overrides_name]
    | some kind => left; cases kind <;> simp [stepDef, stepObject, hroot]
  | inputObjectType i =>
    right
    refine ⟨(Structure.ofInputObjectType i).name.orig, ?_⟩
    cases hr : (removeKey st.tos (Structure.ofInputObjectType i).name.orig).1 with
    | none => simp [stepDef, stepInput, hr]
    | some fos => simp [stepDef, stepInput, hr, apply_type_overrides_name]
  | enumType e =>
    right
    exact ⟨(Enum.ofEnumType e).name.orig, by simp [stepDef, stepEnum]⟩
  | schemaDef raw => left; rfl
  | scalarType => left; rfl
  | interfaceType => left; rfl
  | unionType => left; rfl
  | typeExtension => left; rfl
  | directiveDefinition => left; rfl

/-- One step only appends to the built structure list. -/
theorem stepDef_structures_grow (sd : SchemaDefinition) (st : BuildState)
    (d : Definition) : st.structures.IsPrefix (stepDef sd st d).structures := by
  cases d with
  | objectType o =>
    cases hroot : sd.schema_definition o.name with
    | none =>
      simp only [stepDef, stepObject, hroot]
      exact List.prefix_append _ _
    | some kind =>
      cases kind <;> simp [stepDef, stepObject, hroot]
  | inputObjectType i =>
    simp only [stepDef, stepInput]
    exact List.prefix_append _ _
  | enumType e => simp [stepDef, stepEnum]
  | schemaDef raw => exact List.prefix_rfl
  | scalarType => exact List.prefix_rfl
  | interfaceType => exact List.prefix_rfl
  | unionType => exact List.prefix_rfl
  | typeExtension => exact List.prefix_rfl
  | directiveDefinition => exact List.prefix_rfl

/-- A type-override entry whose key no declaration consumes survives the
whole fold, with the key distinctness preserved. -/
theorem foldl_tos_invariant (sd : SchemaDefinition) :
    ∀ (defs : List Definition) (st : BuildState) (T : String) (v : FieldOverrides),
      (T, v) ∈ st.tos → (st.tos.map Prod.fst).Nodup →
      (∀ d ∈ defs, tosKeyOf d ≠ some T) →
      (T, v) ∈ (List.foldl (stepDef sd) st defs).tos ∧
        ((List.foldl (stepDef sd) st defs).tos.map Prod.fst).Nodup := by
  intro defs
  induction defs with
  | nil => intro st T v hmem hnd _; exact ⟨hmem, hnd⟩
  | cons d rest ih =>
    intro st T v hmem hnd hkeys
    have hstep : (T, v) ∈ (stepDef sd st d).tos ∧
        ((stepDef sd st d).tos.map Prod.fst).Nodup := by
      rcases stepDef_tos_shape sd st d with hsame | ⟨key, hkey, hrem⟩
      · rw [hsame]; exact ⟨hmem, hnd⟩
      · have hkT : T ≠ key := by
          intro he
          exact hkeys d (List.mem_cons_self d rest) (he ▸ hkey)
        rw [hrem]
        exact ⟨removeKey_mem_other st.tos key _ hmem hkT,
          removeKey_keys_nodup st.tos key hnd⟩
    rw [List.foldl_cons]
    exact ih (stepDef sd st d) T v hstep.1 hstep.2
      (fun d2 hd2 => hkeys d2 (List.mem_cons_of_mem d hd2))

/-- A key absent from the name-override map stays absent along the fold. -/
theorem foldl_nos_not_mem (sd : SchemaDefinition) :
    ∀ (defs : List Definition) (st : BuildState) (key : String),
      key ∉ st.nos.map Prod.fst →
      key ∉ (List.foldl (stepDef sd) st defs).nos.map Prod.fst := by
  intro defs
  induction defs with
  | nil => intro st key h; exact h
  | cons d rest ih =>
    intro st key h
    have hstep : key ∉ (stepDef sd st d).nos.map Prod.fst := by
      rcases stepDef_nos_shape sd st d with hsame | ⟨k2, hrem⟩
      · rw [hsame]; exact h
      · rw [hrem]; exact removeKey_keys_not_mem st.nos k2 key h
    rw [List.foldl_cons]
    exact ih (stepDef sd st d) key hstep

/-- Structures already built survive the rest of the fold. -/
theorem foldl_structures_mono (sd : SchemaDefinition) :
    ∀ (defs : List Definition) (st : BuildState) (x : Structure),
      x ∈ st.structures → x ∈ (List.foldl (stepDef sd) st defs).structures := by
  intro defs
  induction defs with
  | nil => intro st x h; exact h
  | cons d rest ih =>
    intro st x h
    rw [List.foldl_cons]
    exact ih (stepDef sd st d) x ((stepDef_structures_grow sd st d).subset h)

/-- A leftover type-override directive yields its "No type or input"
message. -/
theorem mem_leftoverTosErrors (tos : TypeOverrides) (T : String) (tfos : FieldOverrides)
    (hT : (T, tfos) ∈ tos) (fname : String) (fov : FieldOverride)
    (hf : (fname, fov) ∈ tfos) (tov : TypeOverride)
    (htov : tov ∈ leftoverDirectives fov) :
    msgNoTypeOrInput tov.type_name ∈ leftoverTosErrors tos := by
  unfold leftoverTosErrors
  refine List.mem_flatMap.mpr ⟨(T, tfos), hT, ?_⟩
  refine List.mem_flatMap.mpr ⟨(fname, fov), hf, ?_⟩
  exact List.mem_map_of_mem _ htov

/-- When the build collected errors, `new` fails with exactly that
combined diagnostic. -/
theorem new_error_of_buildErrors (doc : List Definition) (tos : TypeOverrides)
    (nos : NameOverrides) (h : buildErrors doc tos nos ≠ []) :
    GraphQLSchema.new doc tos nos = .error (buildErrors doc tos nos) := by
  cases hb : GraphQLSchema.build doc tos nos with
  | error e =>
    unfold GraphQLSchema.new buildErrors
    rw [hb]
  | ok st =>
    unfold buildErrors at h
    rw [hb] at h
    unfold GraphQLSchema.new buildErrors
    rw [hb]
    simp [List.isEmpty_iff, h]

/-- With no schema declaration left in the body, the collected diagnostic
is the fold's errors followed by the leftover-override reports. -/
theorem buildErrors_of_no_schema (doc : List Definition) (tos : TypeOverrides)
    (nos : NameOverrides) (h : (resolveSchema doc).2.countP isSchemaDef = 0) :
    buildErrors doc tos nos =
      (List.foldl (stepDef (resolveSchema doc).1) (BuildState.init tos nos)
        (resolveSchema doc).2).errors ++
      leftoverTosErrors (List.foldl (stepDef (resolveSchema doc).1)
        (BuildState.init tos nos) (resolveSchema doc).2).tos ++
      leftoverNosErrors (List.foldl (stepDef (resolveSchema doc).1)
        (BuildState.init tos nos) (resolveSchema doc).2).nos := by
  unfold buildErrors GraphQLSchema.build
  rw [buildLoop_no_schema _ _ _ h]
  rfl

/-- With no schema declaration left in the body, the built structures are
the fold's structures. -/
theorem buildStructures_of_no_schema (doc : List Definition) (tos : TypeOverrides)
    (nos : NameOverrides) (h : (resolveSchema doc).2.countP isSchemaDef = 0) :
    buildStructures doc tos nos =
      (List.foldl (stepDef (resolveSchema doc).1) (BuildState.init tos nos)
        (resolveSchema doc).2).structures := by
  unfold buildStructures GraphQLSchema.build
  rw [buildLoop_no_schema _ _ _ h]
  rfl

/-- Processing a non-root object whose type-override entry is present (and
whose name has no name override) appends exactly the override-applied
structure to the model. -/
theorem stepObject_target (sd : SchemaDefinition) (st : BuildState) (o : GObjectType)
    (tfos : FieldOverrides)
    (hroot : sd.schema_definition o.name = none)
    (hmem : (o.name, tfos) ∈ st.tos) (hnd : (st.tos.map Prod.fst).Nodup)
    (hnos : o.name ∉ st.nos.map Prod.fst) :
    ((Structure.ofObjectType o).apply_type_overrides tfos).1 ∈
      (stepObject sd st o).structures := by
  have horig : (Structure.ofObjectType o).name.orig = o.name := orig_ofString o.name
  have hr1 : (removeKey st.tos (Structure.ofObjectType o).name.orig).1 = some tfos := by
    rw [horig]
    exact removeKey_mem_nodup st.tos o.name tfos hnd hmem
  have hname : ((Structure.ofObjectType o).apply_type_overrides tfos).1.name.orig
      = o.name := by
    rw [apply_type_overrides_name]
    exact horig
  have hrn : (removeKey st.nos
      ((Structure.ofObjectType o).apply_type_overrides tfos).1.name.orig).1 = none := by
    rw [hname, removeKey_not_mem st.nos o.name hnos]
  simp only [stepObject, hroot, hr1, hrn]
  simp

/-- C5 helper: a matching direct override rewrites exactly the targeted
field. -/
theorem c5S1 (s : Structure) (fos : FieldOverrides) (fname : String)
    (fo : Option TypeOverride) (argos : ArgTypeOverrides) (k : Nat) (f0 : Field)
    (hknd : (fos.map Prod.fst).Nodup)
    (hfnd : (s.fields.map (fun f => f.name.orig)).Nodup)
    (hmem : (fname, (fo, argos)) ∈ fos)
    (hk : s.fields[k]? = some f0) (horig : f0.name.orig = fname) :
    (s.apply_type_overrides fos).1.fields[k]? =
      some { f0 with field_type := applyDirectOverride fo f0.field_type } := by
  rw [show (s.apply_type_overrides fos).1.fields = (structFieldsLoop s.fields fos).1
    from rfl]
  exact structFieldsLoop_getElem s.fields fos k f0 fname fo argos hknd hfnd hmem hk horig

/-- C5 helper: the error list of `Structure::apply_type_overrides`. -/
theorem struct_apply_errs_shape (s : Structure) (fos : FieldOverrides) :
    (s.apply_type_overrides fos).2 = (structFieldsLoop s.fields fos).2.2 ++
      (structFieldsLoop s.fields fos).2.1.flatMap
        (fun kv => (leftoverDirectives kv.2).map
          (fun t2 => msgNoField t2.field_name t2.type_name)) := rfl

/-- C5 helper: argument overrides on a structure field are reported as
misuse. -/
theorem c5S2 (s : Structure) (fos : FieldOverrides) (fname : String)
    (fo : Option TypeOverride) (argos : ArgTypeOverrides) (k : Nat) (f0 : Field)
    (hknd : (fos.map Prod.fst).Nodup)
    (hfnd : (s.fields.map (fun f => f.name.orig)).Nodup)
    (hmem : (fname, (fo, argos)) ∈ fos)
    (hk : s.fields[k]? = some f0) (horig : f0.name.orig = fname)
    (hargos : argos ≠ []) : msgArgsOnOps ∈ (s.apply_type_overrides fos).2 := by
  rw [struct_apply_errs_shape]
  exact List.mem_append_left _
    (structFieldsLoop_misuse s.fields fos k f0 fname fo argos hknd hfnd hmem hk horig hargos)

/-- C5 helper: an unknown field name is reported, naming field and type. -/
theorem c5S3a (s : Structure) (fos : FieldOverrides) (fname : String)
    (fo : Option TypeOverride) (argos : ArgTypeOverrides) (tov : TypeOverride)
    (hmem : (fname, (fo, argos)) ∈ fos)
    (hno : ∀ f ∈ s.fields, f.name.orig ≠ fname) (hfo : fo = some tov) :
    msgNoField tov.field_name tov.type_name ∈ (s.apply_type_overrides fos).2 := by
  rw [struct_apply_errs_shape]
  refine List.mem_append_right _ (List.mem_flatMap.mpr
    ⟨(fname, (fo, argos)),
      structFieldsLoop_leftover s.fields fos fname (fo, argos) hmem hno, ?_⟩)
  exact List.mem_map_of_mem _ (mem_leftoverDirectives_direct fo argos tov hfo)

/-- C5 helper: an argument directive under an unknown field is also
reported. -/
theorem c5S3b (s : Structure) (fos : FieldOverrides) (fname : String)
    (fo : Option TypeOverride) (argos : ArgTypeOverrides) (aname : String)
    (ato : TypeOverride) (hmem : (fname, (fo, argos)) ∈ fos)
    (hno : ∀ f ∈ s.fields, f.name.orig ≠ fname) (hato : (aname, ato) ∈ argos) :
    msgNoField ato.field_name ato.type_name ∈ (s.apply_type_overrides fos).2 := by
  rw [struct_apply_errs_shape]
  refine List.mem_append_right _ (List.mem_flatMap.mpr
    ⟨(fname, (fo, argos)),
      structFieldsLoop_leftover s.fields fos fname (fo, argos) hmem hno, ?_⟩)
  exact List.mem_map_of_mem _ (mem_leftoverDirectives_arg fo argos aname ato hato)

/-- C5 helper: the error list of `Operations::apply_type_overrides`. -/
theorem ops_apply_errs_shape (ops : List Operation) (oos : FieldOverrides) :
    (Operations.apply_type_overrides ops oos).2 = (opsLoop ops oos).2.2 ++
      (opsLoop ops oos).2.1.flatMap
        (fun kv => (leftoverDirectives kv.2).map
          (fun t2 => msgNoOperation t2.field_name t2.type_name)) := rfl

/-- C5 helper: a matching operation override rewrites the return type. -/
theorem c5O1 (ops : List Operation) (oos : FieldOverrides) (opname : String)
    (ofo : Option TypeOverride) (oargos : ArgTypeOverrides) (k2 : Nat)
    (op0 : Operation) (hknd : (oos.map Prod.fst).Nodup)
    (hond : (ops.map (fun op => op.name.orig)).Nodup)
    (hmem : (opname, (ofo, oargos)) ∈ oos)
    (hk : ops[k2]? = some op0) (horig : op0.name.orig = opname) :
    ((Operations.apply_type_overrides ops oos).1[k2]?).map Operation.return_type =
      some (applyDirectOverride ofo op0.return_type) := by
  rw [show (Operations.apply_type_overrides ops oos).1 = (opsLoop ops oos).1 from rfl]
  rw [(opsLoop_getElem ops oos k2 op0 opname (ofo, oargos) hknd hond hmem hk horig).1]
  have hred : Option.map Operation.return_type
      (some (op0.apply_type_overrides (ofo, oargos)).1)
      = some ((op0.apply_type_overrides (ofo, oargos)).1.return_type) := rfl
  rw [hred, op_apply_return_type op0 ofo oargos]

/-- C5 helper: a matching argument override rewrites exactly the targeted
argument. -/
theorem c5O1b (ops : List Operation) (oos : FieldOverrides) (opname : String)
    (ofo : Option TypeOverride) (oargos : ArgTypeOverrides) (k2 j : Nat)
    (op0 : Operation) (a0 : Field) (aname2 : String) (ato2 : TypeOverride)
    (hknd : (oos.map Prod.fst).Nodup)
    (hond : (ops.map (fun op => op.name.orig)).Nodup)
    (hmem : (opname, (ofo, oargos)) ∈ oos)
    (hk : ops[k2]? = some op0) (horig : op0.name.orig = opname)
    (hand : (oargos.map Prod.fst).Nodup)
    (hoand : (op0.args.map (fun a => a.name.orig)).Nodup)
    (hato : (aname2, ato2) ∈ oargos)
    (hj : op0.args[j]? = some a0) (horig2 : a0.name.orig = aname2) :
    ((Operations.apply_type_overrides ops oos).1[k2]?).bind (fun op => op.args[j]?) =
      some { a0 with field_type := a0.field_type.override_type ato2.type_ident } := by
  rw [show (Operations.apply_type_overrides ops oos).1 = (opsLoop ops oos).1 from rfl]
  rw [(opsLoop_getElem ops oos k2 op0 opname (ofo, oargos) hknd hond hmem hk horig).1]
  have hred : (some (op0.apply_type_overrides (ofo, oargos)).1).bind
      (fun op => op.args[j]?)
      = ((op0.apply_type_overrides (ofo, oargos)).1.args)[j]? := rfl
  rw [hred, op_apply_args op0 ofo oargos]
  exact opArgsLoop_getElem op0.args oargos j a0 aname2 ato2 hand hoand hato hj horig2

/-- C5 helper: an unknown operation name is reported. -/
theorem c5O2 (ops : List Operation) (oos : FieldOverrides) (opname : String)
    (ofo : Option TypeOverride) (oargos : ArgTypeOverrides) (tov : TypeOverride)
    (hmem : (opname, (ofo, oargos)) ∈ oos)
    (hno : ∀ op ∈ ops, op.name.orig ≠ opname) (hfo : ofo = some tov) :
    msgNoOperation tov.field_name tov.type_name ∈
      (Operations.apply_type_overrides ops oos).2 := by
  rw [ops_apply_errs_shape]
  refine List.mem_append_right _ (List.mem_flatMap.mpr
    ⟨(opname, (ofo, oargos)),
      opsLoop_leftover ops oos opname (ofo, oargos) hmem hno, ?_⟩)
  exact List.mem_map_of_mem _ (mem_leftoverDirectives_direct ofo oargos tov hfo)

/-- C5 helper: an unknown argument name is reported. -/
theorem c5O3 (ops : List Operation) (oos : FieldOverrides) (opname : String)
    (ofo : Option TypeOverride) (oargos : ArgTypeOverrides) (k2 : Nat)
    (op0 : Operation) (aname2 : String) (ato2 : TypeOverride)
    (hknd : (oos.map Prod.fst).Nodup)
    (hond : (ops.map (fun op => op.name.orig)).Nodup)
    (hmem : (opname, (ofo, oargos)) ∈ oos)
    (hk : ops[k2]? = some op0) (horig : op0.name.orig = opname)
    (hato : (aname2, ato2) ∈ oargos)
    (hno : ∀ a ∈ op0.args, a.name.orig ≠ aname2) :
    msgNoArgument (ato2.arg_name.getD "") ato2.type_name ato2.field_name ∈
      (Operations.apply_type_overrides ops oos).2 := by
  have hm2 : msgNoArgument (ato2.arg_name.getD "") ato2.type_name ato2.field_name ∈
      (op0.apply_type_overrides (ofo, oargos)).2 := by
    rw [op_apply_errs op0 ofo oargos]
    refine List.mem_map.mpr ⟨(aname2, ato2), ?_, rfl⟩
    exact opArgsLoop_leftover op0.args oargos aname2 ato2 hato hno
  rw [ops_apply_errs_shape]
  exact List.mem_append_left _
    ((opsLoop_getElem ops oos k2 op0 opname (ofo, oargos) hknd hond hmem hk horig).2 _ hm2)

/-- C5 helper: an unknown type name is reported in the combined
diagnostic. -/
theorem c5B1 (doc : List Definition) (tos : TypeOverrides) (nos : NameOverrides)
    (T : String) (tfos : FieldOverrides) (fname3 : String)
    (fo3 : Option TypeOverride) (argos3 : ArgTypeOverrides) (tov3 : TypeOverride)
    (h0 : (resolveSchema doc).2.countP isSchemaDef = 0)
    (hmem : (T, tfos) ∈ tos)
    (hkeys : ∀ d ∈ (resolveSchema doc).2, tosKeyOf d ≠ some T)
    (hnd3 : (tos.map Prod.fst).Nodup)
    (hf3 : (fname3, (fo3, argos3)) ∈ tfos) (hfo3 : fo3 = some tov3) :
    msgNoTypeOrInput tov3.type_name ∈ buildErrors doc tos nos := by
  rw [buildErrors_of_no_schema doc tos nos h0]
  have hfin := foldl_tos_invariant (resolveSchema doc).1 (resolveSchema doc).2
    (BuildState.init tos nos) T tfos hmem hnd3 hkeys
  exact List.mem_append_left _ (List.mem_append_right _
    (mem_leftoverTosErrors _ T tfos hfin.1 fname3 (fo3, argos3) hf3 tov3
      (mem_leftoverDirectives_direct fo3 argos3 tov3 hfo3)))

/-- C5 helper: a valid directive batch entry is still applied to the
model. -/
theorem c5B3 (doc : List Definition) (tos : TypeOverrides) (nos : NameOverrides)
    (tfos : FieldOverrides) (pre post : List Definition) (o : GObjectType)
    (hsplit : (resolveSchema doc).2 = pre ++ Definition.objectType o :: post)
    (h0 : (resolveSchema doc).2.countP isSchemaDef = 0)
    (hpre : ∀ d ∈ pre, tosKeyOf d ≠ some o.name)
    (hroot : (resolveSchema doc).1.schema_definition o.name = none)
    (hmem : (o.name, tfos) ∈ tos) (hnd : (tos.map Prod.fst).Nodup)
    (hnos : o.name ∉ nos.map Prod.fst) :
    ((Structure.ofObjectType o).apply_type_overrides tfos).1 ∈
      buildStructures doc tos nos := by
  rw [buildStructures_of_no_schema doc tos nos h0, hsplit, List.foldl_append,
    List.foldl_cons]
  have hpreinv := foldl_tos_invariant (resolveSchema doc).1 pre
    (BuildState.init tos nos) o.name tfos hmem hnd hpre
  have hprenos := foldl_nos_not_mem (resolveSchema doc).1 pre
    (BuildState.init tos nos) o.name hnos
  have hstep := stepObject_target (resolveSchema doc).1
    (List.foldl (stepDef (resolveSchema doc).1) (BuildState.init tos nos) pre) o tfos
    hroot hpreinv.1 hpreinv.2 hprenos
  exact foldl_structures_mono (resolveSchema doc).1 post _ _ hstep

/-- Claim C5: every unresolvable override directive (unknown type, unknown
field, unknown operation, unknown argument) and every misuse (argument
override on a structure field) produces its own error naming the offending
type/field/argument; all of them end up in the one combined diagnostic of
the failed compilation; and every valid directive of the same batch is
still applied to the model (field types, operation return types and
argument types are rewritten, and the override-applied structure is in the
built model even when other directives fail). Key/name distinctness
hypotheses reflect GraphQL's uniqueness of type, field and argument names
and the hash-map keying of the directive set. -/
theorem c5_override_error_accumulation
    (s : Structure) (fos : FieldOverrides) (fname : String) (fo : Option TypeOverride)
    (argos : ArgTypeOverrides) (k : Nat) (f0 : Field) (tov : TypeOverride)
    (aname : String) (ato : TypeOverride)
    (ops : List Operation) (oos : FieldOverrides) (opname : String)
    (ofo : Option TypeOverride) (oargos : ArgTypeOverrides) (k2 j : Nat)
    (op0 : Operation) (a0 : Field) (aname2 : String) (ato2 : TypeOverride)
    (doc : List Definition) (tos : TypeOverrides) (nos : NameOverrides)
    (T : String) (tfos : FieldOverrides) (fname3 : String)
    (fo3 : Option TypeOverride) (argos3 : ArgTypeOverrides) (tov3 : TypeOverride)
    (pre post : List Definition) (o : GObjectType) :
    ((fos.map Prod.fst).Nodup → (s.fields.map (fun f => f.name.orig)).Nodup →
      (fname, (fo, argos)) ∈ fos → s.fields[k]? = some f0 → f0.name.orig = fname →
      (s.apply_type_overrides fos).1.fields[k]? =
        some { f0 with field_type := applyDirectOverride fo f0.field_type })
  ∧ ((fos.map Prod.fst).Nodup → (s.fields.map (fun f => f.name.orig)).Nodup →
      (fname, (fo, argos)) ∈ fos → s.fields[k]? = some f0 → f0.name.orig = fname →
      argos ≠ [] → msgArgsOnOps ∈ (s.apply_type_overrides fos).2)
  ∧ ((fname, (fo, argos)) ∈ fos → (∀ f ∈ s.fields, f.name.orig ≠ fname) →
      fo = some tov →
      msgNoField tov.field_name tov.type_name ∈ (s.apply_type_overrides fos).2)
  ∧ ((fname, (fo, argos)) ∈ fos → (∀ f ∈ s.fields, f.name.orig ≠ fname) →
      (aname, ato) ∈ argos →
      msgNoField ato.field_name ato.type_name ∈ (s.apply_type_overrides fos).2)
  ∧ ((oos.map Prod.fst).Nodup → (ops.map (fun op => op.name.orig)).Nodup →
      (opname, (ofo, oargos)) ∈ oos → ops[k2]? = some op0 → op0.name.orig = opname →
      ((Operations.apply_type_overrides ops oos).1[k2]?).map Operation.return_type =
        some (applyDirectOverride ofo op0.return_type))
  ∧ ((oos.map Prod.fst).Nodup → (ops.map (fun op => op.name.orig)).Nodup →
      (opname, (ofo, oargos)) ∈ oos → ops[k2]? = some op0 → op0.name.orig = opname →
      (oargos.map Prod.fst).Nodup → (op0.args.map (fun a => a.name.orig)).Nodup →
      (aname2, ato2) ∈ oargos → op0.args[j]? = some a0 → a0.name.orig = aname2 →
      ((Operations.apply_type_overrides ops oos).1[k2]?).bind (fun op => op.args[j]?) =
        some { a0 with field_type := a0.field_type.override_type ato2.type_ident })
  ∧ ((opname, (ofo, oargos)) ∈ oos → (∀ op ∈ ops, op.name.orig ≠ opname) →
      ofo = some tov →
      msgNoOperation tov.field_name tov.type_name ∈
        (Operations.apply_type_overrides ops oos).2)
  ∧ ((oos.map Prod.fst).Nodup → (ops.map (fun op => op.name.orig)).Nodup →
      (opname, (ofo, oargos)) ∈ oos → ops[k2]? = some op0 → op0.name.orig = opname →
      (aname2, ato2) ∈ oargos → (∀ a ∈ op0.args, a.name.orig ≠ aname2) →
      msgNoArgument (ato2.arg_name.getD "") ato2.type_name ato2.field_name ∈
        (Operations.apply_type_overrides ops oos).2)
  ∧ ((resolveSchema doc).2.countP isSchemaDef = 0 → (T, tfos) ∈ tos →
      (∀ d ∈ (resolveSchema doc).2, tosKeyOf d ≠ some T) →
      (tos.map Prod.fst).Nodup →
      (fname3, (fo3, argos3)) ∈ tfos → fo3 = some tov3 →
      msgNoTypeOrInput tov3.type_name ∈ buildErrors doc tos nos)
  ∧ (buildErrors doc tos nos ≠ [] →
      GraphQLSchema.new doc tos nos = .error (buildErrors doc tos nos))
  ∧ ((resolveSchema doc).2 = pre ++ Definition.objectType o :: post →
      (resolveSchema doc).2.countP isSchemaDef = 0 →
      (∀ d ∈ pre, tosKeyOf d ≠ some o.name) →
      (resolveSchema doc).1.schema_definition o.name = none →
      (o.name, tfos) ∈ tos → (tos.map Prod.fst).Nodup →
      o.name ∉ nos.map Prod.fst →
      ((Structure.ofObjectType o).apply_type_overrides tfos).1 ∈
        buildStructures doc tos nos) :=
  ⟨c5S1 s fos fname fo argos k f0,
   c5S2 s fos fname fo argos k f0,
   c5S3a s fos fname fo argos tov,
   c5S3b s fos fname fo argos aname ato,
   c5O1 ops oos opname ofo oargos k2 op0,
   c5O1b ops oos opname ofo oargos k2 j op0 a0 aname2 ato2,
   c5O2 ops oos opname ofo oargos tov,
   c5O3 ops oos opname ofo oargos k2 op0 aname2 ato2,
   c5B1 doc tos nos T tfos fname3 fo3 argos3 tov3,
   new_error_of_buildErrors doc tos nos,
   c5B3 doc tos nos tfos pre post o⟩

/-- Witness: each branch of the C5 accumulation theorem instantiated on
concrete structures, operations, documents and override maps. -/
theorem c5_override_error_accumulation_witness :
    ((c5exS.apply_type_overrides c5exFosA).1.fields[1]? =
      some { c5exFName with
               field_type := applyDirectOverride (some c5exTovP) c5exFName.field_type })
  ∧ msgArgsOnOps ∈ (c5exS.apply_type_overrides c5exFosA).2
  ∧ msgNoField c5exTovB.field_name c5exTovB.type_name ∈
      (c5exS.apply_type_overrides c5exFosB).2
  ∧ msgNoField c5exAtoB.field_name c5exAtoB.type_name ∈
      (c5exS.apply_type_overrides c5exFosB).2
  ∧ ((Operations.apply_type_overrides c5exOps c5exOosA).1[0]?).map Operation.return_type =
      some (applyDirectOverride (some c5exOTov) c5exOp.return_type)
  ∧ ((Operations.apply_type_overrides c5exOps c5exOosA).1[0]?).bind (fun op => op.args[0]?) =
      some { c5exArg with
               field_type := c5exArg.field_type.override_type c5exAOTov.type_ident }
  ∧ msgNoOperation c5exOTovB.field_name c5exOTovB.type_name ∈
      (Operations.apply_type_overrides c5exOps c5exOosB).2
  ∧ msgNoArgument (c5exAOTovB.arg_name.getD "") c5exAOTovB.type_name c5exAOTovB.field_name ∈
      (Operations.apply_type_overrides c5exOps c5exOosC).2
  ∧ msgNoTypeOrInput c5exTovN.type_name ∈ buildErrors c5exDoc c5exTos []
  ∧ GraphQLSchema.new c5exDoc c5exTos [] = .error (buildErrors c5exDoc c5exTos [])
  ∧ ((Structure.ofObjectType c5exObj).apply_type_overrides c5exTfosP).1 ∈
      buildStructures c5exDoc c5exTos [] := by
  refine ⟨?_, ?_, ?_, ?_, ?_, ?_, ?_, ?_, ?_, ?_, ?_⟩
  · exact (c5_override_error_accumulation c5exS c5exFosA "name" (some c5exTovP)
      [("a", c5exAtoMis)] 1 c5exFName c5exTovP "a" c5exAtoMis c5exOps c5exOosA
      "player" (some c5exOTov) [("id", c5exAOTov)] 0 0 c5exOp c5exArg "id" c5exAOTov
      c5exDoc c5exTos [] "Nope" c5exTfosN "f" (some c5exTovN) [] c5exTovN [] []
      c5exObj).1 (by decide) (by decide) (by decide) (by decide) (by decide)
  · exact (c5_override_error_accumulation c5exS c5exFosA "name" (some c5exTovP)
      [("a", c5exAtoMis)] 1 c5exFName c5exTovP "a" c5exAtoMis c5exOps c5exOosA
      "player" (some c5exOTov) [("id", c5exAOTov)] 0 0 c5exOp c5exArg "id" c5exAOTov
      c5exDoc c5exTos [] "Nope" c5exTfosN "f" (some c5exTovN) [] c5exTovN [] []
      c5exObj).2.1 (by decide) (by decide) (by decide) (by decide) (by decide)
      (by decide)
  · exact (c5_override_error_accumulation c5exS c5exFosB "bogus" (some c5exTovB)
      [("a", c5exAtoB)] 1 c5exFName c5exTovB "a" c5exAtoB c5exOps c5exOosA
      "player" (some c5exOTov) [("id", c5exAOTov)] 0 0 c5exOp c5exArg "id" c5exAOTov
      c5exDoc c5exTos [] "Nope" c5exTfosN "f" (some c5exTovN) [] c5exTovN [] []
      c5exObj).2.2.1 (by decide) (by decide) (by decide)
  · exact (c5_override_error_accumulation c5exS c5exFosB "bogus" (some c5exTovB)
      [("a", c5exAtoB)] 1 c5exFName c5exTovB "a" c5exAtoB c5exOps c5exOosA
      "player" (some c5exOTov) [("id", c5exAOTov)] 0 0 c5exOp c5exArg "id" c5exAOTov
      c5exDoc c5exTos [] "Nope" c5exTfosN "f" (some c5exTovN) [] c5exTovN [] []
      c5exObj).2.2.2.1 (by decide) (by decide) (by decide)
  · exact (c5_override_error_accumulation c5exS c5exFosA "name" (some c5exTovP)
      [("a", c5exAtoMis)] 1 c5exFName c5exTovP "a" c5exAtoMis c5exOps c5exOosA
      "player" (some c5exOTov) [("id", c5exAOTov)] 0 0 c5exOp c5exArg "id" c5exAOTov
      c5exDoc c5exTos [] "Nope" c5exTfosN "f" (some c5exTovN) [] c5exTovN [] []
      c5exObj).2.2.2.2.1 (by decide) (by decide) (by decide) (by decide) (by decide)
  · exact (c5_override_error_accumulation c5exS c5exFosA "name" (some c5exTovP)
      [("a", c5exAtoMis)] 1 c5exFName c5exTovP "a" c5exAtoMis c5exOps c5exOosA
      "player" (some c5exOTov) [("id", c5exAOTov)] 0 0 c5exOp c5exArg "id" c5exAOTov
      c5exDoc c5exTos [] "Nope" c5exTfosN "f" (some c5exTovN) [] c5exTovN [] []
      c5exObj).2.2.2.2.2.1 (by decide) (by decide) (by decide) (by decide)
      (by decide) (by decide) (by decide) (by decide) (by decide) (by decide)
  · exact (c5_override_error_accumulation c5exS c5exFosA "name" (some c5exTovP)
      [("a", c5exAtoMis)] 1 c5exFName c5exOTovB "a" c5exAtoMis c5exOps c5exOosB
      "bogus" (some c5exOTovB) [] 0 0 c5exOp c5exArg "id" c5exAOTov
      c5exDoc c5exTos [] "Nope" c5exTfosN "f" (some c5exTovN) [] c5exTovN [] []
      c5exObj).2.2.2.2.2.2.1 (by decide) (by decide) (by decide)
  · exact (c5_override_error_accumulation c5exS c5exFosA "name" (some c5exTovP)
      [("a", c5exAtoMis)] 1 c5exFName c5exTovP "a" c5exAtoMis c5exOps c5exOosC
      "player" none [("bogus", c5exAOTovB)] 0 0 c5exOp c5exArg "bogus" c5exAOTovB
      c5exDoc c5exTos [] "Nope" c5exTfosN "f" (some c5exTovN) [] c5exTovN [] []
      c5exObj).2.2.2.2.2.2.2.1 (by decide) (by decide) (by decide) (by decide)
      (by decide) (by decide) (by decide)
  · exact (c5_override_error_accumulation c5exS c5exFosA "name" (some c5exTovP)
      [("a", c5exAtoMis)] 1 c5exFName c5exTovP "a" c5exAtoMis c5exOps c5exOosA
      "player" (some c5exOTov) [("id", c5exAOTov)] 0 0 c5exOp c5exArg "id" c5exAOTov
      c5exDoc c5exTos [] "Nope" c5exTfosN "f" (some c5exTovN) [] c5exTovN [] []
      c5exObj).2.2.2.2.2.2.2.2.1 (by decide) (by decide) (by decide) (by decide)
      (by decide) (by decide)
  · exact (c5_override_error_accumulation c5exS c5exFosA "name" (some c5exTovP)
      [("a", c5exAtoMis)] 1 c5exFName c5exTovP "a" c5exAtoMis c5exOps c5exOosA
      "player" (some c5exOTov) [("id", c5exAOTov)] 0 0 c5exOp c5exArg "id" c5exAOTov
      c5exDoc c5exTos [] "Nope" c5exTfosN "f" (some c5exTovN) [] c5exTovN [] []
      c5exObj).2.2.2.2.2.2.2.2.2.1 (by decide)
  · exact (c5_override_error_accumulation c5exS c5exFosA "name" (some c5exTovP)
      [("a", c5exAtoMis)] 1 c5exFName c5exTovP "a" c5exAtoMis c5exOps c5exOosA
      "player" (some c5exOTov) [("id", c5exAOTov)] 0 0 c5exOp c5exArg "id" c5exAOTov
      c5exDoc c5exTos [] "Nope" c5exTfosP "f" (some c5exTovN) [] c5exTovN [] []
      c5exObj).2.2.2.2.2.2.2.2.2.2 (by decide) (by decide) (by decide) (by decide)
      (by decide) (by decide) (by decide)

end LambdaAppsync
